import Mathlib

/-
Verification of the 2D physics engine (spatial partitioning, narrow-phase
collision detection, continuous collision detection, impulse resolution).

The embedding follows the Python sources:
  * core/vector.py        : Vec (2D vector kernel over ℝ; math.sqrt is Real.sqrt)
  * physics/body.py       : bodies, ring gap test, segment closest-point query
  * collision/detector.py : SpatialGrid, QuadTree, narrow-phase tests, CCD
  * collision/resolver.py : positional correction, velocity impulse, friction
  * core/engine.py        : force application and integration

Python floats are modelled by real numbers; a Python ZeroDivisionError is
modelled by an Option-valued function returning none at the offending input.
The broad-phase structures and the ring gap interval logic only use field
arithmetic, comparisons and floor/ceil, so they are embedded over ℚ and stay
fully executable.
-/

namespace PhysicsVerif

/-! # Definitions -/

/-! ## Vector kernel (core/vector.py, class Vector2D) -/

/-- 2D vector with real components, embedding `Vector2D`. -/
structure Vec where
  x : ℝ
  y : ℝ

namespace Vec

def add (a b : Vec) : Vec := ⟨a.x + b.x, a.y + b.y⟩

def sub (a b : Vec) : Vec := ⟨a.x - b.x, a.y - b.y⟩

/-- `Vector2D.__mul__` (vector times scalar). -/
def smul (a : Vec) (c : ℝ) : Vec := ⟨a.x * c, a.y * c⟩

def neg (a : Vec) : Vec := ⟨-a.x, -a.y⟩

instance : Add Vec := ⟨add⟩

instance : Sub Vec := ⟨sub⟩

instance : Neg Vec := ⟨neg⟩

/-- `Vector2D.__truediv__` (component-wise division by a scalar). -/
noncomputable def divs (a : Vec) (c : ℝ) : Vec := ⟨a.x / c, a.y / c⟩

/-- `Vector2D.dot`. -/
def dot (a b : Vec) : ℝ := a.x * b.x + a.y * b.y

/-- `Vector2D.cross` (scalar 2D cross product). -/
def cross (a b : Vec) : ℝ := a.x * b.y - a.y * b.x

/-- `Vector2D.magnitude_squared`. -/
def magnitudeSq (a : Vec) : ℝ := a.x * a.x + a.y * a.y

/-- `Vector2D.magnitude` (`math.sqrt(x*x + y*y)`). -/
noncomputable def magnitude (a : Vec) : ℝ := Real.sqrt (a.x * a.x + a.y * a.y)

/-- `Vector2D.normalized`: returns the zero vector when the magnitude is 0. -/
noncomputable def normalized (a : Vec) : Vec :=
  if a.magnitude = 0 then ⟨0, 0⟩ else ⟨a.x / a.magnitude, a.y / a.magnitude⟩

/-- `Vector2D.normalize` (in-place variant, modelled functionally): divides
the components by the magnitude only when the magnitude is positive. -/
noncomputable def normalize (a : Vec) : Vec :=
  if a.magnitude > 0 then ⟨a.x / a.magnitude, a.y / a.magnitude⟩ else a

/-- `Vector2D.distance_to`. -/
noncomputable def distanceTo (a b : Vec) : ℝ :=
  Real.sqrt ((a.x - b.x) * (a.x - b.x) + (a.y - b.y) * (a.y - b.y))

end Vec

/-! ## Narrow-phase bodies (physics/body.py) over ℝ -/

/-- The fields of `Circle` used by the narrow-phase and CCD tests. -/
structure CircleB where
  pos : Vec
  vel : Vec
  radius : ℝ

/-- The fields of `Segment` used by the narrow-phase test (`end` is a Lean
keyword, so the end point is called `endp`). -/
structure SegmentB where
  start : Vec
  endp : Vec
  thickness : ℝ

/-- `Segment.__init__` computes the body position as `(start + end) / 2`. -/
noncomputable def SegmentB.position (s : SegmentB) : Vec := (s.start + s.endp).divs 2

/-- `Segment.closest_point_on_segment`. -/
noncomputable def SegmentB.closestPointOnSegment (s : SegmentB) (point : Vec) : Vec :=
  let lineVec := s.endp - s.start
  let pointVec := point - s.start
  if lineVec.magnitudeSq = 0 then s.start
  else
    let t := max 0 (min 1 (pointVec.dot lineVec / lineVec.magnitudeSq))
    s.start + lineVec.smul t

/-- `Segment.get_direction`. -/
noncomputable def SegmentB.getDirection (s : SegmentB) : Vec :=
  (s.endp - s.start).normalized

/-- `Segment.get_normal`. -/
noncomputable def SegmentB.getNormal (s : SegmentB) : Vec :=
  ⟨-(s.getDirection).y, (s.getDirection).x⟩

/-! ## Narrow-phase detector (collision/detector.py) -/

/-- The payload of a `CollisionInfo` record: contact point, normal,
penetration, type tag, and the `collision_time` metadata entry used by CCD. -/
structure ContactR where
  contactPoint : Vec
  normal : Vec
  penetration : ℝ
  collisionType : String
  collisionTime : Option ℝ

/-- `CollisionDetector._circle_circle_collision`. -/
noncomputable def circleCircleCollision (a b : CircleB) : Option ContactR :=
  let distance := a.pos.distanceTo b.pos
  let radiusSum := a.radius + b.radius
  if distance < radiusSum ∧ distance > 0 then
    let normal := (b.pos - a.pos).normalized
    some { contactPoint := a.pos + normal.smul a.radius
           normal := normal
           penetration := radiusSum - distance
           collisionType := "circle-circle"
           collisionTime := none }
  else none

/-- `CollisionDetector._circle_segment_collision`. -/
noncomputable def circleSegmentCollision (c : CircleB) (s : SegmentB) : Option ContactR :=
  let closest := s.closestPointOnSegment c.pos
  let distance := c.pos.distanceTo closest
  if distance < c.radius + s.thickness / 2 then
    let normal := if distance > 0 then (c.pos - closest).normalized else s.getNormal
    some { contactPoint := closest
           normal := normal
           penetration := c.radius + s.thickness / 2 - distance
           collisionType := "circle-segment"
           collisionTime := none }
  else none

/-! ## Continuous collision detection (collision/detector.py,
class ContinuousCollisionDetector) -/

/-- Distance between the two circle centers at parameter time `t`
(`pos + velocity * t` for each circle, as in `_binary_search_collision_time`
and `_circle_circle_ccd`). -/
noncomputable def distanceAt (a b : CircleB) (t : ℝ) : ℝ :=
  (a.pos + a.vel.smul t).distanceTo (b.pos + b.vel.smul t)

/-- The bisection loop of `_binary_search_collision_time`, one fuel unit per
iteration.  Each iteration tests the midpoint distance against the tolerance
1e-6, narrows to the half interval containing the crossing, stops early when
the interval is shorter than the tolerance, and after the last iteration
returns the midpoint of the current interval. -/
noncomputable def bisectLoop (a b : CircleB) (radiusSum : ℝ) :
    ℕ → ℝ → ℝ → ℝ
  | 0, tMin, tMax => (tMin + tMax) / 2
  | n + 1, tMin, tMax =>
    let tMid := (tMin + tMax) / 2
    if |distanceAt a b tMid - radiusSum| < 1e-6 then tMid
    else if distanceAt a b tMid > radiusSum then
      if tMax - tMid < 1e-6 then (tMid + tMax) / 2
      else bisectLoop a b radiusSum n tMid tMax
    else
      if tMid - tMin < 1e-6 then (tMin + tMid) / 2
      else bisectLoop a b radiusSum n tMin tMid

/-- `_binary_search_collision_time`: 20 bisection iterations on `[0, dt]`.
The Python function's return value is always a float (the final
`return (t_min + t_max) / 2` is unconditional), hence a plain real here. -/
noncomputable def binarySearchCollisionTime (a b : CircleB) (dt radiusSum : ℝ) : ℝ :=
  bisectLoop a b radiusSum 20 0 dt

/-- `ContinuousCollisionDetector._circle_circle_ccd`. -/
noncomputable def circleCircleCCD (a b : CircleB) (dt : ℝ) : Option ContactR :=
  let radiusSum := a.radius + b.radius
  let initialDistance := a.pos.distanceTo b.pos
  if initialDistance < radiusSum then none
  else if distanceAt a b dt ≥ radiusSum then none
  else
    let tCollision := binarySearchCollisionTime a b dt radiusSum
    let posA := a.pos + a.vel.smul tCollision
    let posB := b.pos + b.vel.smul tCollision
    let normal := (posB - posA).normalized
    some { contactPoint := posA + normal.smul a.radius
           normal := normal
           penetration := 0
           collisionType := "circle-circle-ccd"
           collisionTime := some tCollision }

/-! ## Physics body state (physics/body.py, class PhysicsBody) -/

/-- A Python float mass value: finite, or `float('inf')` as passed by the
`Segment` and `Ring` constructors. -/
inductive PMass where
  | finite (m : ℝ)
  | inf

/-- IEEE-float `1.0 / mass`: `1.0 / float('inf')` is exactly `0.0`.
(A zero finite mass would raise in Python; no constructor in the source
passes one, and no claim depends on that case.) -/
noncomputable def PMass.invOne : PMass → ℝ
  | .finite m => 1 / m
  | .inf => 0

/-- The scalar-division `x / mass` used by `_apply_forces`; division by
`float('inf')` gives `0.0`. -/
noncomputable def PMass.divBy (x : ℝ) : PMass → ℝ
  | .finite m => x / m
  | .inf => 0

/-- The `PhysicsBody` state touched by the engine step and the resolver. -/
structure RBody where
  position : Vec
  velocity : Vec
  acceleration : Vec
  static : Bool
  invMass : ℝ
  mass : PMass
  restitution : ℝ
  friction : ℝ
  dragCoefficient : ℝ
  forces : List Vec

/-- `PhysicsBody.__init__`: velocity and acceleration start at zero,
`inv_mass = 0.0 if static else 1.0 / mass`, restitution 0.8, friction 0.3,
drag coefficient 0.1, empty force list. -/
noncomputable def mkPhysicsBody (position : Vec) (mass : PMass) (static : Bool) : RBody :=
  { position := position
    velocity := ⟨0, 0⟩
    acceleration := ⟨0, 0⟩
    static := static
    invMass := if static then 0 else mass.invOne
    mass := mass
    restitution := 0.8
    friction := 0.3
    dragCoefficient := 0.1
    forces := [] }

/-- `Segment.__init__`: the base body is built at the midpoint with
`float('inf')` mass (the geometric fields live in `SegmentB`). -/
noncomputable def mkSegmentBody (start endp : Vec) (static : Bool) : RBody :=
  mkPhysicsBody ((start + endp).divs 2) PMass.inf static

/-- `Ring.__init__`: the base body is built at the center with
`float('inf')` mass. -/
noncomputable def mkRingBody (center : Vec) (static : Bool) : RBody :=
  mkPhysicsBody center PMass.inf static

/-- `PhysicsBody.add_impulse`. -/
noncomputable def addImpulse (b : RBody) (impulse : Vec) : RBody :=
  if b.static then b
  else { b with velocity := b.velocity + impulse.smul b.invMass }

/-! ## Collision resolver (collision/resolver.py, class CollisionResolver) -/

/-- `CollisionResolver._resolve_position` (correction factor 0.8 as set in
`__init__`). -/
noncomputable def resolvePosition (a b : RBody) (normal : Vec) (penetration : ℝ) :
    RBody × RBody :=
  let invMassA := if a.static then 0 else a.invMass
  let invMassB := if b.static then 0 else b.invMass
  let totalInvMass := invMassA + invMassB
  if totalInvMass ≤ 0 then (a, b)
  else
    let correction := normal.smul (penetration * 0.8 / totalInvMass)
    let a' := if a.static then a
              else { a with position := a.position - correction.smul invMassA }
    let b' := if b.static then b
              else { b with position := b.position + correction.smul invMassB }
    (a', b')

/-- `CollisionResolver._apply_friction` (velocity threshold 0.01;
`math.sqrt` on the product of the friction coefficients). -/
noncomputable def applyFriction (a b : RBody) (normal : Vec) (impulseScalar : ℝ) :
    RBody × RBody :=
  let relativeVelocity := b.velocity - a.velocity
  let tangent0 := relativeVelocity - normal.smul (relativeVelocity.dot normal)
  if tangent0.magnitude < 0.01 then (a, b)
  else
    let tangent := tangent0.normalized
    let frictionMagnitude := -(relativeVelocity.dot tangent)
    let mu := Real.sqrt (a.friction * b.friction)
    let frictionImpulse :=
      if |frictionMagnitude| < impulseScalar * mu then tangent.smul frictionMagnitude
      else tangent.smul (-(impulseScalar * mu))
    let invMassA := if a.static then 0 else a.invMass
    let invMassB := if b.static then 0 else b.invMass
    let a' := if a.static then a
              else { a with velocity := a.velocity - frictionImpulse.smul invMassA }
    let b' := if b.static then b
              else { b with velocity := b.velocity + frictionImpulse.smul invMassB }
    (a', b')

/-- `CollisionResolver._resolve_velocity` followed by the `_apply_friction`
call it makes.  The unguarded Python line `impulse_scalar /= inv_mass_a +
inv_mass_b` raises ZeroDivisionError when the divisor is exactly 0, which is
modelled by returning `none`. -/
noncomputable def resolveVelocity (a b : RBody) (normal : Vec) :
    Option (RBody × RBody) :=
  let relativeVelocity := b.velocity - a.velocity
  let velocityAlongNormal := relativeVelocity.dot normal
  if velocityAlongNormal > 0 then some (a, b)
  else
    let restitution := min a.restitution b.restitution
    let invMassA := if a.static then 0 else a.invMass
    let invMassB := if b.static then 0 else b.invMass
    if invMassA + invMassB = 0 then none
    else
      let impulseScalar := -(1 + restitution) * velocityAlongNormal / (invMassA + invMassB)
      let impulse := normal.smul impulseScalar
      let a' := if a.static then a
                else { a with velocity := a.velocity - impulse.smul invMassA }
      let b' := if b.static then b
                else { b with velocity := b.velocity + impulse.smul invMassB }
      some (applyFriction a' b' normal impulseScalar)

/-! ## Engine step operations (core/engine.py) -/

/-- `PhysicsEngine._apply_forces`, per body: static bodies are skipped;
otherwise acceleration is rebuilt from gravity, air drag and the accumulated
forces, and the force list is cleared. -/
noncomputable def applyForcesBody (gravity : Vec) (b : RBody) : RBody :=
  if b.static then b
  else
    let acc0 := gravity
    let acc1 :=
      if b.velocity.magnitude > 0 then
        let airForce := ((b.velocity.normalized.smul (-b.velocity.magnitudeSq)).smul 0.5).smul
          b.dragCoefficient
        acc0 + ⟨PMass.divBy airForce.x b.mass, PMass.divBy airForce.y b.mass⟩
      else acc0
    let acc2 := b.forces.foldl
      (fun acc force => acc + ⟨PMass.divBy force.x b.mass, PMass.divBy force.y b.mass⟩) acc1
    { b with acceleration := acc2, forces := [] }

/-- `PhysicsEngine._integrate`, per body: static bodies are skipped;
otherwise Verlet position update, velocity update, clamp to `max_velocity`,
and the global velocity damping `1 - friction * dt`. -/
noncomputable def integrateBody (maxVelocity frictionCfg dt : ℝ) (b : RBody) : RBody :=
  if b.static then b
  else
    let position' := b.position + b.velocity.smul dt + ((b.acceleration.smul 0.5).smul dt).smul dt
    let velocity1 := b.velocity + b.acceleration.smul dt
    let velocity2 :=
      if velocity1.magnitude > maxVelocity then velocity1.normalized.smul maxVelocity
      else velocity1
    let velocity3 := velocity2.smul (1 - frictionCfg * dt)
    { b with position := position', velocity := velocity3 }

/-- One primitive state mutation performed during `PhysicsEngine.step`:
force application, integration, positional correction, velocity/friction
resolution for a contact between bodies `i` and `j`, or an impulse. -/
inductive EngineOp where
  | forces (gravity : Vec)
  | integrate (maxVelocity frictionCfg dt : ℝ)
  | resolvePos (i j : ℕ) (normal : Vec) (penetration : ℝ)
  | resolveVel (i j : ℕ) (normal : Vec)
  | impulse (i : ℕ) (imp : Vec)

/-- Applies one engine operation to the body list.  A `resolveVel` step whose
Python counterpart raises ZeroDivisionError (`none`) leaves the state as it
was at the raise (static bodies are untouched either way). -/
noncomputable def applyOp (s : List RBody) : EngineOp → List RBody
  | .forces g => s.map (applyForcesBody g)
  | .integrate mv fc dt => s.map (integrateBody mv fc dt)
  | .resolvePos i j n pen =>
    match s.get? i, s.get? j with
    | some a, some b =>
      let p := resolvePosition a b n pen
      (s.set i p.1).set j p.2
    | _, _ => s
  | .resolveVel i j n =>
    match s.get? i, s.get? j with
    | some a, some b =>
      match resolveVelocity a b n with
      | some p => (s.set i p.1).set j p.2
      | none => s
    | _, _ => s
  | .impulse i imp =>
    match s.get? i with
    | some b => s.set i (addImpulse b imp)
    | none => s

/-- Applies a sequence of engine operations (any number of `step(dt)` calls
unfolds to such a sequence). -/
noncomputable def applyOps (ops : List EngineOp) (s : List RBody) : List RBody :=
  ops.foldl applyOp s

/-! ## Ring gap test (physics/body.py, Ring.point_in_gap) over ℚ -/

/-- The gap-related fields of `Ring`: gap angle, gap start angle and current
rotation, all in degrees. -/
structure RingQ where
  gapAngle : ℚ
  gapStart : ℚ
  rotation : ℚ

/-- Python's `x % 360.0` on floats (the remainder with the divisor's sign,
here always in `[0, 360)`). -/
def mod360 (x : ℚ) : ℚ := x - 360 * (⌊x / 360⌋ : ℤ)

/-- `Ring.has_gap`. -/
def RingQ.hasGap (r : RingQ) : Bool := decide (r.gapAngle > 0)

/-- `Ring.point_in_gap`, modelled from the angle computation onward: the
parameter `angle0` stands for `math.degrees(math.atan2(rel.y, rel.x))`, the
query point's angle about the ring center in degrees (atan2 itself is
transcendental and is abstracted as this input). -/
def RingQ.pointInGapAngle (r : RingQ) (angle0 : ℚ) : Bool :=
  if ¬ r.hasGap then false
  else
    let angle := mod360 (angle0 + 360)
    let gapStartRotated := mod360 (r.gapStart + r.rotation)
    let gapEnd := mod360 (gapStartRotated + r.gapAngle)
    if gapStartRotated ≤ gapEnd then
      decide (gapStartRotated ≤ angle ∧ angle ≤ gapEnd)
    else
      decide (angle ≥ gapStartRotated ∨ angle ≤ gapEnd)

/-- Spec-side gap membership (from the specification's words): the point's
normalized angle lies in `[gap_start + rotation, gap_start + rotation +
gap_angle]` taken modulo 360°, i.e. the angular distance from the interval
start is at most `gap_angle`. -/
def specGapMembership (r : RingQ) (angle0 : ℚ) : Prop :=
  mod360 (mod360 (angle0 + 360) - (r.gapStart + r.rotation)) ≤ r.gapAngle

/-! ## Broad phase over ℚ: bounding boxes and shapes -/

/-- Axis-aligned bounding box `(min, max)` as returned by
`get_bounding_box`. -/
structure Box where
  minX : ℚ
  minY : ℚ
  maxX : ℚ
  maxY : ℚ
deriving DecidableEq, Repr

/-- Point membership in a box. -/
def inBox (p : ℚ × ℚ) (b : Box) : Prop :=
  b.minX ≤ p.1 ∧ p.1 ≤ b.maxX ∧ b.minY ≤ p.2 ∧ p.2 ≤ b.maxY

/-- Two boxes overlap when they share a point. -/
def boxesOverlap (a b : Box) : Prop := ∃ p, inBox p a ∧ inBox p b

/-- Squared euclidean distance over ℚ. -/
def distSq (p q : ℚ × ℚ) : ℚ :=
  (p.1 - q.1) * (p.1 - q.1) + (p.2 - q.2) * (p.2 - q.2)

/-- Shapes inserted into the broad phase (the dynamic body kinds whose
`get_bounding_box` implementations appear in physics/body.py). -/
inductive BodyQ where
  | circle (pos : ℚ × ℚ) (radius : ℚ)
  | segment (start endp : ℚ × ℚ) (thickness : ℚ)
deriving DecidableEq, Repr

/-- `Circle.get_bounding_box` (position ± radius) and
`Segment.get_bounding_box` (endpoint extremes ± full thickness). -/
def BodyQ.boundingBox : BodyQ → Box
  | .circle p r => ⟨p.1 - r, p.2 - r, p.1 + r, p.2 + r⟩
  | .segment s e th => ⟨min s.1 e.1 - th, min s.2 e.2 - th, max s.1 e.1 + th, max s.2 e.2 + th⟩

/-- Rational counterpart of `closest_point_on_segment`. -/
def closestPointQ (s e p : ℚ × ℚ) : ℚ × ℚ :=
  let lx := e.1 - s.1
  let ly := e.2 - s.2
  let msq := lx * lx + ly * ly
  if msq = 0 then s
  else
    let t := max 0 (min 1 (((p.1 - s.1) * lx + (p.2 - s.2) * ly) / msq))
    (s.1 + lx * t, s.2 + ly * t)

/-- Point membership in a shape: the circle disc, and the segment capsule of
radius thickness/2 around the centerline (the overlap criterion used by the
narrow phase). -/
def BodyQ.containsPoint : BodyQ → (ℚ × ℚ) → Prop
  | .circle c r, p => distSq p c ≤ r * r
  | .segment s e th, p => distSq p (closestPointQ s e p) ≤ (th / 2) * (th / 2)

/-- Geometric validity: non-negative radius/thickness. -/
def BodyQ.valid : BodyQ → Prop
  | .circle _ r => 0 ≤ r
  | .segment _ _ th => 0 ≤ th

/-! ## SpatialGrid (collision/detector.py, class SpatialGrid) -/

/-- `SpatialGrid.cols` (`int(math.ceil(world_width / cell_size))`). -/
def gridCols (w cs : ℚ) : ℤ := ⌈w / cs⌉

/-- `SpatialGrid.rows`. -/
def gridRows (h cs : ℚ) : ℤ := ⌈h / cs⌉

/-- `SpatialGrid._get_cell_coords`: floor division by the cell size, clamped
into `[0, cols-1] × [0, rows-1]`. -/
def getCellCoords (w h cs : ℚ) (x y : ℚ) : ℤ × ℤ :=
  (max 0 (min ⌊x / cs⌋ (gridCols w cs - 1)),
   max 0 (min ⌊y / cs⌋ (gridRows h cs - 1)))

/-- Integer range `[lo, hi]` as a list (empty when `hi < lo`), mirroring
Python's `range(lo, hi + 1)`. -/
def intRange (lo hi : ℤ) : List ℤ :=
  (List.range (hi + 1 - lo).toNat).map (fun i => lo + Int.ofNat i)

/-- `SpatialGrid._get_cells_for_body`: all cells covered by the body's
bounding box (rows outer, cols inner, as in the source). -/
def cellsForBox (w h cs : ℚ) (bb : Box) : List (ℤ × ℤ) :=
  let lo := getCellCoords w h cs bb.minX bb.minY
  let hi := getCellCoords w h cs bb.maxX bb.maxY
  ((intRange lo.2 hi.2).map (fun row => (intRange lo.1 hi.1).map (fun col => (col, row)))).flatten

/-- The grid dictionary: key list in insertion order plus the cell contents
(bodies are identified by their index in the engine's body list, standing in
for Python's `id()`). -/
structure GridState where
  keys : List (ℤ × ℤ)
  data : (ℤ × ℤ) → List ℕ

/-- One `grid[cell].append(body)` step (creating the key when absent). -/
def insertCell (g : GridState) (c : ℤ × ℤ) (k : ℕ) : GridState :=
  { keys := if c ∈ g.keys then g.keys else g.keys ++ [c]
    data := fun c' => if c' = c then g.data c' ++ [k] else g.data c' }

/-- `SpatialGrid.insert`. -/
def gridInsertBody (w h cs : ℚ) (g : GridState) (k : ℕ) (bb : Box) : GridState :=
  (cellsForBox w h cs bb).foldl (fun g' c => insertCell g' c k) g

/-- Inserting all bodies in list order, as `detect_collisions` does. -/
def buildGridAux (w h cs : ℚ) : ℕ → List Box → GridState → GridState
  | _, [], g => g
  | k, bb :: rest, g => buildGridAux w h cs (k + 1) rest (gridInsertBody w h cs g k bb)

/-- The grid state after `clear()` and inserting every body. -/
def buildGrid (w h cs : ℚ) (boxes : List Box) : GridState :=
  buildGridAux w h cs 0 boxes ⟨[], fun _ => []⟩

/-- All ordered index pairs `(l[i], l[j])`, `i < j`, of one cell list. -/
def pairsOfList : List ℕ → List (ℕ × ℕ)
  | [] => []
  | x :: xs => xs.map (fun y => (x, y)) ++ pairsOfList xs

/-- The identity-based dedup key `(min(id a, id b), max(id a, id b))`. -/
def pairKey (p : ℕ × ℕ) : ℕ × ℕ := (min p.1 p.2, max p.1 p.2)

/-- The dedup filter of `get_potential_collisions` (the `pairs` set is
threaded through all cells). -/
def dedupPairs (seen : List (ℕ × ℕ)) : List (ℕ × ℕ) → List (ℕ × ℕ)
  | [] => []
  | p :: rest =>
    if pairKey p ∈ seen then dedupPairs seen rest
    else p :: dedupPairs (pairKey p :: seen) rest

/-- `SpatialGrid.get_potential_collisions`: within-cell pairs over all cell
lists, de-duplicated by the identity pair key. -/
def getPotentialCollisions (g : GridState) : List (ℕ × ℕ) :=
  dedupPairs [] ((g.keys.map g.data).map pairsOfList).flatten

/-! ## QuadTree (collision/detector.py, class QuadTree) -/

/-- Quadtree node bounds `(x, y, width, height)`. -/
structure QBounds where
  x : ℚ
  y : ℚ
  w : ℚ
  h : ℚ
deriving DecidableEq, Repr

/-- `QuadTree.get_index`: `none` is Python's -1, `some 0/1/2/3` are the
NE/NW/SW/SE quadrants. -/
def qtGetIndex (bd : QBounds) (b : Box) : Option ℕ :=
  let verticalMidpoint := bd.x + bd.w / 2
  let horizontalMidpoint := bd.y + bd.h / 2
  let top := b.minY < horizontalMidpoint ∧ b.maxY < horizontalMidpoint
  let bottom := b.minY > horizontalMidpoint
  if b.minX < verticalMidpoint ∧ b.maxX < verticalMidpoint then
    if top then some 1 else if bottom then some 2 else none
  else if b.minX > verticalMidpoint then
    if top then some 0 else if bottom then some 3 else none
  else none

/-- A quadtree node: a leaf (empty `nodes` list) or a split node with the
four NE/NW/SW/SE children created by `split()`. -/
inductive QT where
  | leaf (bd : QBounds) (maxObjects maxLevels level : ℕ) (objects : List Box)
  | quad (bd : QBounds) (maxObjects maxLevels level : ℕ) (objects : List Box)
      (ne nw sw se : QT)

/-- `objects.append(body)` at the node itself (used only as the fuel-0
fallback of the faithful bounded recursion; unreachable for enough fuel). -/
def qtAddObject : QT → Box → QT
  | .leaf bd mo ml lv objs, b => .leaf bd mo ml lv (objs ++ [b])
  | .quad bd mo ml lv objs ne nw sw se, b => .quad bd mo ml lv (objs ++ [b]) ne nw sw se

/-- The `while` redistribution loop of `insert`: objects are scanned in
order, each one with a quadrant index (`get_index` only ever returns -1 or
0..3) is pushed into that child with the supplied inserter, the rest stay at
the node. -/
def qtRedistributeWith (ins : QT → Box → QT) (bd : QBounds) (mo ml lv : ℕ) :
    List Box → List Box → QT → QT → QT → QT → QT
  | [], kept, ne, nw, sw, se => .quad bd mo ml lv kept ne nw sw se
  | o :: rest, kept, ne, nw, sw, se =>
    if qtGetIndex bd o = some 0 then
      qtRedistributeWith ins bd mo ml lv rest kept (ins ne o) nw sw se
    else if qtGetIndex bd o = some 1 then
      qtRedistributeWith ins bd mo ml lv rest kept ne (ins nw o) sw se
    else if qtGetIndex bd o = some 2 then
      qtRedistributeWith ins bd mo ml lv rest kept ne nw (ins sw o) se
    else if qtGetIndex bd o = some 3 then
      qtRedistributeWith ins bd mo ml lv rest kept ne nw sw (ins se o)
    else
      qtRedistributeWith ins bd mo ml lv rest (kept ++ [o]) ne nw sw se

/-- The four fresh children created by `split()` (NE, NW, SW, SE). -/
def qtFreshChildren (bd : QBounds) (mo ml lv : ℕ) : QT × QT × QT × QT :=
  (.leaf ⟨bd.x + bd.w / 2, bd.y, bd.w / 2, bd.h / 2⟩ mo ml (lv + 1) [],
   .leaf ⟨bd.x, bd.y, bd.w / 2, bd.h / 2⟩ mo ml (lv + 1) [],
   .leaf ⟨bd.x, bd.y + bd.h / 2, bd.w / 2, bd.h / 2⟩ mo ml (lv + 1) [],
   .leaf ⟨bd.x + bd.w / 2, bd.y + bd.h / 2, bd.w / 2, bd.h / 2⟩ mo ml (lv + 1) [])

/-- `QuadTree.insert`, with one fuel unit per level of recursion (the Python
recursion is bounded by `max_levels`, so any fuel above the remaining depth
gives the source behavior). -/
def qtInsertF : ℕ → QT → Box → QT
  | 0, t, b => qtAddObject t b
  | f + 1, .leaf bd mo ml lv objs, b =>
    let objs' := objs ++ [b]
    if objs'.length > mo ∧ lv < ml then
      let c := qtFreshChildren bd mo ml lv
      qtRedistributeWith (qtInsertF f) bd mo ml lv objs' [] c.1 c.2.1 c.2.2.1 c.2.2.2
    else .leaf bd mo ml lv objs'
  | f + 1, .quad bd mo ml lv objs ne nw sw se, b =>
    if qtGetIndex bd b = some 0 then .quad bd mo ml lv objs (qtInsertF f ne b) nw sw se
    else if qtGetIndex bd b = some 1 then .quad bd mo ml lv objs ne (qtInsertF f nw b) sw se
    else if qtGetIndex bd b = some 2 then .quad bd mo ml lv objs ne nw (qtInsertF f sw b) se
    else if qtGetIndex bd b = some 3 then .quad bd mo ml lv objs ne nw sw (qtInsertF f se b)
    else
      let objs' := objs ++ [b]
      if objs'.length > mo ∧ lv < ml then
        qtRedistributeWith (qtInsertF f) bd mo ml lv objs' [] ne nw sw se
      else .quad bd mo ml lv objs' ne nw sw se

/-- `QuadTree.retrieve`: recurse into the query's quadrant when it has one,
then add this node's own objects. -/
def qtRetrieve : QT → Box → List Box
  | .leaf _ _ _ _ objs, _ => objs
  | .quad bd _ _ _ objs ne nw sw se, q =>
    (if qtGetIndex bd q = some 0 then qtRetrieve ne q
     else if qtGetIndex bd q = some 1 then qtRetrieve nw q
     else if qtGetIndex bd q = some 2 then qtRetrieve sw q
     else if qtGetIndex bd q = some 3 then qtRetrieve se q
     else []) ++ objs

/-- Every object stored anywhere in the (sub)tree. -/
def qtAllObjects : QT → List Box
  | .leaf _ _ _ _ objs => objs
  | .quad _ _ _ _ objs ne nw sw se =>
    objs ++ (qtAllObjects ne ++ (qtAllObjects nw ++ (qtAllObjects sw ++ qtAllObjects se)))

/-- Placement invariant maintained by `insert`: every object stored inside a
child subtree fits that child's quadrant at the parent's bounds. -/
def qtWellPlaced : QT → Prop
  | .leaf _ _ _ _ _ => True
  | .quad bd _ _ _ _ ne nw sw se =>
    (∀ b ∈ qtAllObjects ne, qtGetIndex bd b = some 0) ∧
    (∀ b ∈ qtAllObjects nw, qtGetIndex bd b = some 1) ∧
    (∀ b ∈ qtAllObjects sw, qtGetIndex bd b = some 2) ∧
    (∀ b ∈ qtAllObjects se, qtGetIndex bd b = some 3) ∧
    qtWellPlaced ne ∧ qtWellPlaced nw ∧ qtWellPlaced sw ∧ qtWellPlaced se

/-- The query is indexable (`get_index != -1`) at every split node along its
retrieval path. -/
def qtPathFits : QT → Box → Prop
  | .leaf _ _ _ _ _, _ => True
  | .quad bd _ _ _ _ ne nw sw se, q =>
    if qtGetIndex bd q = some 0 then qtPathFits ne q
    else if qtGetIndex bd q = some 1 then qtPathFits nw q
    else if qtGetIndex bd q = some 2 then qtPathFits sw q
    else if qtGetIndex bd q = some 3 then qtPathFits se q
    else False

/-- A fresh quadtree node at level 0 (`QuadTree.__init__`). -/
def qtEmpty (bd : QBounds) (mo ml : ℕ) : QT := .leaf bd mo ml 0 []

/-- A quadtree built by inserting the given objects in order (with fuel
`ml + 1`, enough for the depth-bounded Python recursion). -/
def buildQT (bd : QBounds) (mo ml : ℕ) (objs : List Box) : QT :=
  objs.foldl (fun t b => qtInsertF (ml + 1) t b) (qtEmpty bd mo ml)

/-! # Theorems -/

/-! ## Component lemmas for the vector kernel -/

@[simp] lemma Vec.x_mk (a b : ℝ) : (Vec.mk a b).x = a := rfl

@[simp] lemma Vec.y_mk (a b : ℝ) : (Vec.mk a b).y = b := rfl

@[simp] lemma Vec.add_def (a b : Vec) : a + b = ⟨a.x + b.x, a.y + b.y⟩ := rfl

@[simp] lemma Vec.sub_def (a b : Vec) : a - b = ⟨a.x - b.x, a.y - b.y⟩ := rfl

@[simp] lemma Vec.smul_def (a : Vec) (c : ℝ) : a.smul c = ⟨a.x * c, a.y * c⟩ := rfl

@[simp] lemma Vec.dot_def (a b : Vec) : a.dot b = a.x * b.x + a.y * b.y := rfl

@[simp] lemma Vec.magnitudeSq_def (a : Vec) : a.magnitudeSq = a.x * a.x + a.y * a.y := rfl

@[simp] lemma Vec.divs_def (a : Vec) (c : ℝ) : a.divs c = ⟨a.x / c, a.y / c⟩ := rfl

lemma Vec.ext' {a b : Vec} (hx : a.x = b.x) (hy : a.y = b.y) : a = b := by
  cases a
  cases b
  simp_all

lemma Vec.magnitude_nonneg (a : Vec) : 0 ≤ a.magnitude := Real.sqrt_nonneg _

lemma Vec.magnitude_eq_zero_iff (a : Vec) : a.magnitude = 0 ↔ a = ⟨0, 0⟩ := by
  constructor
  · intro h
    have hnn : 0 ≤ a.x * a.x + a.y * a.y :=
      add_nonneg (mul_self_nonneg _) (mul_self_nonneg _)
    have hsq : a.x * a.x + a.y * a.y = 0 := Real.sqrt_eq_zero hnn |>.mp h
    have hx : a.x = 0 := by nlinarith [sq_nonneg a.x, sq_nonneg a.y]
    have hy : a.y = 0 := by nlinarith [sq_nonneg a.x, sq_nonneg a.y]
    cases a
    simp_all
  · intro h
    subst h
    simp [Vec.magnitude]

lemma Vec.magnitude_pos_of_ne (a : Vec) (h : a ≠ ⟨0, 0⟩) : 0 < a.magnitude := by
  rcases lt_or_eq_of_le (Vec.magnitude_nonneg a) with hlt | heq
  · exact hlt
  · exact absurd ((Vec.magnitude_eq_zero_iff a).mp heq.symm) h

lemma Vec.mul_self_magnitude (a : Vec) :
    a.magnitude * a.magnitude = a.x * a.x + a.y * a.y := by
  have hnn : 0 ≤ a.x * a.x + a.y * a.y :=
    add_nonneg (mul_self_nonneg _) (mul_self_nonneg _)
  exact Real.mul_self_sqrt hnn

lemma Vec.magnitude_sub_eq_distanceTo (a b : Vec) :
    (b - a).magnitude = a.distanceTo b := by
  show Real.sqrt _ = Real.sqrt _
  have h : (b.x - a.x) * (b.x - a.x) + (b.y - a.y) * (b.y - a.y) =
      (a.x - b.x) * (a.x - b.x) + (a.y - b.y) * (a.y - b.y) := by ring
  rw [show ((b - a).x) = b.x - a.x from rfl, show ((b - a).y) = b.y - a.y from rfl, h]

lemma Vec.magnitude_zero : Vec.magnitude ⟨0, 0⟩ = 0 := by
  simp [Vec.magnitude]

/-- Evaluates `Real.sqrt` at a perfect square. -/
lemma sqrt_eval {a b : ℝ} (hb : 0 ≤ b) (h : b * b = a) : Real.sqrt a = b := by
  rw [← h]; exact Real.sqrt_mul_self hb

/-! ## C8: zero-vector normalization -/

/-- C8: normalizing the zero vector returns the zero vector (and the
in-place `normalize` leaves it unchanged); for every non-zero vector,
normalization returns a vector of magnitude 1 that is a positive scalar
multiple of the input (same direction), and `normalize` agrees with
`normalized`. -/
theorem C8_zero_vector_normalization (v : Vec) :
    (v = ⟨0, 0⟩ → v.normalized = ⟨0, 0⟩ ∧ v.normalize = v) ∧
    (v ≠ ⟨0, 0⟩ →
      v.normalized.magnitude = 1 ∧
      (∃ c : ℝ, 0 < c ∧ v.normalized = v.smul c) ∧
      v.normalize = v.normalized) := by
  constructor
  · intro h
    subst h
    constructor
    · simp [Vec.normalized, Vec.magnitude_zero]
    · simp [Vec.normalize, Vec.magnitude_zero]
  · intro h
    have hm : 0 < v.magnitude := Vec.magnitude_pos_of_ne v h
    have hmne : v.magnitude ≠ 0 := ne_of_gt hm
    have hnorm : v.normalized = ⟨v.x / v.magnitude, v.y / v.magnitude⟩ := by
      simp [Vec.normalized, hmne]
    refine ⟨?_, ⟨1 / v.magnitude, by positivity, ?_⟩, ?_⟩
    · rw [hnorm]
      show Real.sqrt _ = 1
      have hsum : v.x / v.magnitude * (v.x / v.magnitude) +
          v.y / v.magnitude * (v.y / v.magnitude) = 1 := by
        have hms := Vec.mul_self_magnitude v
        field_simp
        linarith [hms]
      rw [Vec.x_mk, Vec.y_mk, hsum, Real.sqrt_one]
    · rw [hnorm]
      simp only [Vec.smul_def, Vec.mk.injEq]
      constructor <;> rw [mul_one_div]
    · rw [hnorm]
      simp [Vec.normalize, hm]

/-- Witness for C8 at the concrete vectors (0,0) and (3,4). -/
theorem C8_zero_vector_normalization_witness :
    (Vec.normalized ⟨0, 0⟩ = ⟨0, 0⟩ ∧ Vec.normalize ⟨0, 0⟩ = ⟨0, 0⟩) ∧
    Vec.magnitude (Vec.normalized ⟨3, 4⟩) = 1 := by
  have h0 := (C8_zero_vector_normalization ⟨0, 0⟩).1 rfl
  have h1 := (C8_zero_vector_normalization ⟨3, 4⟩).2 (by
    intro h
    rw [Vec.mk.injEq] at h
    exact absurd h.1 (by norm_num))
  exact ⟨h0, h1.1⟩

/-! ## C5: circle-circle narrow phase -/

/-- C5: the circle-circle test returns a contact exactly when
`0 < distance < rA + rB`; in that case normal = (B−A)/distance,
penetration = rA + rB − distance, contact point = A + normal·rA.
When the centers coincide (distance 0) there is no contact. -/
theorem C5_circle_circle_contact (a b : CircleB) :
    ((circleCircleCollision a b).isSome ↔
      (0 < a.pos.distanceTo b.pos ∧ a.pos.distanceTo b.pos < a.radius + b.radius)) ∧
    (0 < a.pos.distanceTo b.pos → a.pos.distanceTo b.pos < a.radius + b.radius →
      circleCircleCollision a b = some
        { contactPoint := a.pos + (b.pos - a.pos).smul (a.radius / a.pos.distanceTo b.pos)
          normal := (b.pos - a.pos).smul (1 / a.pos.distanceTo b.pos)
          penetration := a.radius + b.radius - a.pos.distanceTo b.pos
          collisionType := "circle-circle"
          collisionTime := none }) := by
  have hmain : 0 < a.pos.distanceTo b.pos → a.pos.distanceTo b.pos < a.radius + b.radius →
      circleCircleCollision a b = some
        { contactPoint := a.pos + (b.pos - a.pos).smul (a.radius / a.pos.distanceTo b.pos)
          normal := (b.pos - a.pos).smul (1 / a.pos.distanceTo b.pos)
          penetration := a.radius + b.radius - a.pos.distanceTo b.pos
          collisionType := "circle-circle"
          collisionTime := none } := by
    intro hpos hlt
    have hmag : (b.pos - a.pos).magnitude = a.pos.distanceTo b.pos :=
      Vec.magnitude_sub_eq_distanceTo _ _
    have hne : (b.pos - a.pos).magnitude ≠ 0 := by rw [hmag]; exact ne_of_gt hpos
    have hnorm : (b.pos - a.pos).normalized =
        (b.pos - a.pos).smul (1 / a.pos.distanceTo b.pos) := by
      rw [Vec.normalized, if_neg hne, hmag]
      simp only [Vec.smul_def, Vec.mk.injEq]
      constructor <;> rw [mul_one_div]
    rw [circleCircleCollision]
    simp only [if_pos (And.intro hlt hpos)]
    rw [hnorm]
    have hcontact : ((b.pos - a.pos).smul (1 / a.pos.distanceTo b.pos)).smul a.radius =
        (b.pos - a.pos).smul (a.radius / a.pos.distanceTo b.pos) := by
      simp only [Vec.smul_def, Vec.mk.injEq]
      constructor <;> ring
    rw [hcontact]
  refine ⟨?_, hmain⟩
  constructor
  · intro hsome
    by_contra hcond
    have hnone : circleCircleCollision a b = none := by
      rw [circleCircleCollision]
      rw [if_neg]
      intro ⟨h1, h2⟩
      exact hcond ⟨h2, h1⟩
    rw [hnone] at hsome
    simp at hsome
  · intro ⟨h1, h2⟩
    rw [hmain h1 h2]
    exact Option.isSome_some

/-- Witness for C5: circles of radius 2 at (0,0) and (3,0). -/
theorem C5_circle_circle_contact_witness :
    circleCircleCollision ⟨⟨0, 0⟩, ⟨0, 0⟩, 2⟩ ⟨⟨3, 0⟩, ⟨0, 0⟩, 2⟩ = some
        { contactPoint := Vec.mk 0 0 + (Vec.mk 3 0 - Vec.mk 0 0).smul
            (2 / Vec.distanceTo ⟨0, 0⟩ ⟨3, 0⟩)
          normal := (Vec.mk 3 0 - Vec.mk 0 0).smul (1 / Vec.distanceTo ⟨0, 0⟩ ⟨3, 0⟩)
          penetration := 2 + 2 - Vec.distanceTo ⟨0, 0⟩ ⟨3, 0⟩
          collisionType := "circle-circle"
          collisionTime := none } := by
  have hd : Vec.distanceTo ⟨0, 0⟩ ⟨3, 0⟩ = 3 := by
    rw [Vec.distanceTo]
    norm_num
    exact sqrt_eval (by norm_num) (by norm_num)
  exact (C5_circle_circle_contact ⟨⟨0, 0⟩, ⟨0, 0⟩, 2⟩ ⟨⟨3, 0⟩, ⟨0, 0⟩, 2⟩).2
    (by rw [hd]; norm_num) (by rw [hd]; norm_num)

/-! ## C6: continuous collision detection -/

/-- The bisection result always lies strictly inside the current interval. -/
lemma bisectLoop_range (a b : CircleB) (rs : ℝ) :
    ∀ (n : ℕ) (tMin tMax : ℝ), tMin < tMax →
      tMin < bisectLoop a b rs n tMin tMax ∧ bisectLoop a b rs n tMin tMax < tMax := by
  intro n
  induction n with
  | zero =>
    intro tMin tMax h
    simp only [bisectLoop]
    constructor <;> linarith
  | succ n ih =>
    intro tMin tMax h
    simp only [bisectLoop]
    have h1 : tMin < (tMin + tMax) / 2 := by linarith
    have h2 : (tMin + tMax) / 2 < tMax := by linarith
    split_ifs with hc1 hc2 hc3 hc4
    · exact ⟨h1, h2⟩
    · constructor <;> linarith
    · have := ih ((tMin + tMax) / 2) tMax h2
      exact ⟨lt_trans h1 this.1, this.2⟩
    · constructor <;> linarith
    · have := ih tMin ((tMin + tMax) / 2) h1
      exact ⟨this.1, lt_trans this.2 h2⟩

/-- C6: when the circles do not overlap at t=0 but overlap at t=dt, CCD
returns a contact with penetration exactly 0 whose metadata records a time of
impact strictly between 0 and dt (found by 20-iteration, 1e-6-tolerance
bisection); when the circles already overlap at t=0, or do not overlap at
t=dt, CCD returns no contact. -/
theorem C6_ccd_contact (a b : CircleB) (dt : ℝ) :
    (a.pos.distanceTo b.pos < a.radius + b.radius → circleCircleCCD a b dt = none) ∧
    (a.radius + b.radius ≤ distanceAt a b dt → circleCircleCCD a b dt = none) ∧
    (0 < dt → a.radius + b.radius ≤ a.pos.distanceTo b.pos →
      distanceAt a b dt < a.radius + b.radius →
      ∃ info, circleCircleCCD a b dt = some info ∧ info.penetration = 0 ∧
        ∃ t, info.collisionTime = some t ∧ 0 < t ∧ t < dt) := by
  refine ⟨?_, ?_, ?_⟩
  · intro h
    rw [circleCircleCCD]
    simp only [if_pos h]
  · intro h
    rw [circleCircleCCD]
    split_ifs with h1 h2
    all_goals first
      | rfl
      | exact absurd (ge_iff_le.mpr h) (by assumption)
  · intro hdt hinit hfinal
    rw [circleCircleCCD]
    rw [if_neg (not_lt.mpr hinit), if_neg (not_le.mpr hfinal)]
    refine ⟨_, rfl, rfl, binarySearchCollisionTime a b dt (a.radius + b.radius), rfl, ?_⟩
    exact bisectLoop_range a b (a.radius + b.radius) 20 0 dt hdt

/-- Witness for C6: unit circles at (0,0) (velocity (4,0)) and (5,0) (at
rest) with dt = 1: separated at t=0 (distance 5 ≥ 2), overlapping at t=1
(distance 1 < 2). -/
theorem C6_ccd_contact_witness :
    ∃ info, circleCircleCCD ⟨⟨0, 0⟩, ⟨4, 0⟩, 1⟩ ⟨⟨5, 0⟩, ⟨0, 0⟩, 1⟩ 1 = some info ∧
      info.penetration = 0 ∧
      ∃ t, info.collisionTime = some t ∧ 0 < t ∧ t < 1 := by
  have h0 : Vec.distanceTo ⟨0, 0⟩ ⟨5, 0⟩ = 5 := by
    rw [Vec.distanceTo]
    norm_num
    exact sqrt_eval (by norm_num) (by norm_num)
  have h1 : distanceAt ⟨⟨0, 0⟩, ⟨4, 0⟩, 1⟩ ⟨⟨5, 0⟩, ⟨0, 0⟩, 1⟩ 1 = 1 := by
    rw [distanceAt]
    show Vec.distanceTo ⟨0 + 4 * 1, 0 + 0 * 1⟩ ⟨5 + 0 * 1, 0 + 0 * 1⟩ = 1
    rw [Vec.distanceTo]
    norm_num
  exact (C6_ccd_contact ⟨⟨0, 0⟩, ⟨4, 0⟩, 1⟩ ⟨⟨5, 0⟩, ⟨0, 0⟩, 1⟩ 1).2.2
    (by norm_num) (by rw [h0]; norm_num) (by rw [h1]; norm_num)

/-! ## C2: direction of the stored contact normal -/

/-- C2 (failing input): the `CollisionInfo` dataclass documents its normal
as pointing from body A to body B, and the circle-circle test satisfies
this; but `_circle_segment_collision` stores `normalized(center −
closestPoint)`, which points from the segment (body B) toward the circle
(body A).  At the concrete input — circle of radius 1 at the origin, segment
from (−10,2) to (10,2) with thickness 5 — a contact is produced whose normal
(0,−1) has negative dot product with the vector from the circle's position to
the segment body's position, so it does not point from A toward B. -/
theorem C2_circle_segment_normal_not_A_to_B :
    ∃ info,
      circleSegmentCollision ⟨⟨0, 0⟩, ⟨0, 0⟩, 1⟩ ⟨⟨-10, 2⟩, ⟨10, 2⟩, 5⟩ = some info ∧
      info.normal = ⟨0, -1⟩ ∧
      info.normal.dot (SegmentB.position ⟨⟨-10, 2⟩, ⟨10, 2⟩, 5⟩ - Vec.mk 0 0) < 0 := by
  have hclosest : SegmentB.closestPointOnSegment ⟨⟨-10, 2⟩, ⟨10, 2⟩, 5⟩ ⟨0, 0⟩ =
      ⟨0, 2⟩ := by
    rw [SegmentB.closestPointOnSegment]
    norm_num [min_def, max_def]
  have hdist : Vec.distanceTo ⟨0, 0⟩ ⟨0, 2⟩ = 2 := by
    rw [Vec.distanceTo]
    norm_num
    exact sqrt_eval (by norm_num) (by norm_num)
  have hmagv : Vec.magnitude ⟨0, -2⟩ = 2 := by
    rw [Vec.magnitude]
    norm_num
    exact sqrt_eval (by norm_num) (by norm_num)
  have hnorm2 : Vec.normalized ⟨0, -2⟩ = ⟨0, -1⟩ := by
    rw [Vec.normalized, hmagv]
    norm_num
  refine ⟨{ contactPoint := ⟨0, 2⟩
            normal := ⟨0, -1⟩
            penetration := 1 + 5 / 2 - 2
            collisionType := "circle-segment"
            collisionTime := none }, ?_, rfl, ?_⟩
  · rw [circleSegmentCollision]
    simp only [hclosest, hdist]
    rw [if_pos (show (2 : ℝ) < 1 + 5 / 2 by norm_num)]
    rw [if_pos (show (2 : ℝ) > 0 by norm_num)]
    have hsub : (Vec.mk 0 0 - Vec.mk 0 2) = Vec.mk 0 (-2) := by
      simp only [Vec.sub_def]
      norm_num
    rw [hsub, hnorm2]
  · rw [SegmentB.position]
    norm_num

/-! ## C3: the velocity-resolution division is unguarded -/

/-- C3 (failing input): the claim says the division of the impulse scalar by
`invMassA + invMassB` is guarded and never executes with a zero divisor, even
for two static bodies.  It is not: for two overlapping *static* unit circles
(a pair the spatial-grid broad phase does produce, since only the naïve path
skips static-static pairs) the detector returns a contact, and
`_resolve_velocity` reaches `impulse_scalar /= inv_mass_a + inv_mass_b` with
`inv_mass_a + inv_mass_b = 0`, raising ZeroDivisionError (modelled as
`none`).  The positional-correction step guards this very divisor
(`if total_inv_mass <= 0: return`), confirming the guard was intended. -/
theorem C3_velocity_resolution_zero_divisor :
    ∃ info,
      circleCircleCollision ⟨⟨0, 0⟩, ⟨0, 0⟩, 1⟩ ⟨⟨1, 0⟩, ⟨0, 0⟩, 1⟩ = some info ∧
      info.normal = ⟨1, 0⟩ ∧
      resolveVelocity (mkPhysicsBody ⟨0, 0⟩ (.finite 1) true)
        (mkPhysicsBody ⟨1, 0⟩ (.finite 1) true) info.normal = none := by
  have hd : Vec.distanceTo ⟨0, 0⟩ ⟨1, 0⟩ = 1 := by
    rw [Vec.distanceTo]
    norm_num
  have hmagv : Vec.magnitude ⟨1, 0⟩ = 1 := by
    rw [Vec.magnitude]
    norm_num
  have hnorm1 : Vec.normalized ⟨1, 0⟩ = ⟨1, 0⟩ := by
    rw [Vec.normalized, hmagv]
    norm_num
  have hcc : circleCircleCollision ⟨⟨0, 0⟩, ⟨0, 0⟩, 1⟩ ⟨⟨1, 0⟩, ⟨0, 0⟩, 1⟩ = some
      { contactPoint := Vec.mk 0 0 + (Vec.mk 1 0).smul 1
        normal := ⟨1, 0⟩
        penetration := 1 + 1 - 1
        collisionType := "circle-circle"
        collisionTime := none } := by
    rw [circleCircleCollision]
    simp only [hd]
    rw [if_pos (by norm_num : (1 : ℝ) < 1 + 1 ∧ (1 : ℝ) > 0)]
    have hsub : (Vec.mk 1 0 - Vec.mk 0 0) = Vec.mk 1 0 := by
      simp only [Vec.sub_def]
      norm_num
    rw [hsub, hnorm1]
  refine ⟨_, hcc, rfl, ?_⟩
  rw [resolveVelocity]
  simp only [mkPhysicsBody]
  norm_num

/-! ## C10: infinite-mass segments and rings -/

lemma Vec.add_smul_zero (v w : Vec) : v + w.smul 0 = v :=
  Vec.ext' (by simp) (by simp)

lemma Vec.sub_smul_zero (v w : Vec) : v - w.smul 0 = v :=
  Vec.ext' (by simp) (by simp)

/-- A body with inverse mass 0 keeps its velocity through `_apply_friction`
(second slot). -/
lemma applyFriction_velocity_b (a b : RBody) (n : Vec) (j : ℝ) (hb : b.invMass = 0) :
    (applyFriction a b n j).2.velocity = b.velocity := by
  rw [applyFriction]
  cases hsb : b.static <;>
    simp only [hsb, hb, Bool.false_eq_true, if_false, if_true] <;>
    split_ifs <;>
    simp [Vec.add_smul_zero]

/-- A body with inverse mass 0 keeps its velocity through `_apply_friction`
(first slot). -/
lemma applyFriction_velocity_a (a b : RBody) (n : Vec) (j : ℝ) (ha : a.invMass = 0) :
    (applyFriction a b n j).1.velocity = a.velocity := by
  rw [applyFriction]
  cases hsa : a.static <;>
    simp only [hsa, ha, Bool.false_eq_true, if_false, if_true] <;>
    split_ifs <;>
    simp [Vec.sub_smul_zero]

/-- A body with inverse mass 0 keeps its velocity through
`_resolve_velocity` + `_apply_friction` (second slot); `none` models the
ZeroDivisionError abort, which also leaves the velocity unchanged. -/
lemma resolveVelocity_velocity_b (a b : RBody) (n : Vec) (hb : b.invMass = 0) :
    ((resolveVelocity a b n).getD (a, b)).2.velocity = b.velocity := by
  rw [resolveVelocity]
  cases hsb : b.static <;>
    simp only [hsb, hb, Bool.false_eq_true, if_false, if_true] <;>
    split_ifs <;>
    simp [Vec.add_smul_zero, applyFriction_velocity_b, hb]

/-- A body with inverse mass 0 keeps its velocity through
`_resolve_velocity` + `_apply_friction` (first slot). -/
lemma resolveVelocity_velocity_a (a b : RBody) (n : Vec) (ha : a.invMass = 0) :
    ((resolveVelocity a b n).getD (a, b)).1.velocity = a.velocity := by
  rw [resolveVelocity]
  cases hsa : a.static <;>
    simp only [hsa, ha, Bool.false_eq_true, if_false, if_true] <;>
    split_ifs <;>
    simp [Vec.sub_smul_zero, applyFriction_velocity_a, ha]

lemma mkSegmentBody_invMass (start endp : Vec) (st : Bool) :
    (mkSegmentBody start endp st).invMass = 0 := by
  cases st <;> simp [mkSegmentBody, mkPhysicsBody, PMass.invOne]

lemma mkRingBody_invMass (center : Vec) (st : Bool) :
    (mkRingBody center st).invMass = 0 := by
  cases st <;> simp [mkRingBody, mkPhysicsBody, PMass.invOne]

/-- `add_impulse` never changes the velocity of a body with inverse mass 0,
static or not. -/
lemma addImpulse_zero_invMass (b : RBody) (imp : Vec) (hb : b.invMass = 0) :
    (addImpulse b imp).velocity = b.velocity := by
  rw [addImpulse]
  cases hsb : b.static <;> simp [hsb, hb, Vec.add_smul_zero]

/-- C10: every Segment and every Ring is constructed with `float('inf')`
mass, so its inverse mass is exactly 0 whatever the static flag; hence
`add_impulse` and the resolver's impulse (and friction) application leave its
velocity unchanged even when it is constructed with static=False. -/
theorem C10_segment_ring_infinite_mass (start endp center : Vec) (st1 st2 : Bool) :
    (mkSegmentBody start endp st1).invMass = 0 ∧
    (mkRingBody center st2).invMass = 0 ∧
    (∀ imp, (addImpulse (mkSegmentBody start endp st1) imp).velocity =
      (mkSegmentBody start endp st1).velocity) ∧
    (∀ imp, (addImpulse (mkRingBody center st2) imp).velocity =
      (mkRingBody center st2).velocity) ∧
    (∀ a n, ((resolveVelocity a (mkSegmentBody start endp st1) n).getD
        (a, mkSegmentBody start endp st1)).2.velocity =
      (mkSegmentBody start endp st1).velocity) ∧
    (∀ b n, ((resolveVelocity (mkSegmentBody start endp st1) b n).getD
        (mkSegmentBody start endp st1, b)).1.velocity =
      (mkSegmentBody start endp st1).velocity) ∧
    (∀ a n, ((resolveVelocity a (mkRingBody center st2) n).getD
        (a, mkRingBody center st2)).2.velocity = (mkRingBody center st2).velocity) ∧
    (∀ b n, ((resolveVelocity (mkRingBody center st2) b n).getD
        (mkRingBody center st2, b)).1.velocity = (mkRingBody center st2).velocity) := by
  refine ⟨mkSegmentBody_invMass start endp st1, mkRingBody_invMass center st2,
    fun imp => addImpulse_zero_invMass _ imp (mkSegmentBody_invMass start endp st1),
    fun imp => addImpulse_zero_invMass _ imp (mkRingBody_invMass center st2),
    fun a n => resolveVelocity_velocity_b a _ n (mkSegmentBody_invMass start endp st1),
    fun b n => resolveVelocity_velocity_a _ b n (mkSegmentBody_invMass start endp st1),
    fun a n => resolveVelocity_velocity_b a _ n (mkRingBody_invMass center st2),
    fun b n => resolveVelocity_velocity_a _ b n (mkRingBody_invMass center st2)⟩

/-! ## C4: static bodies never move -/

lemma applyForcesBody_static (g : Vec) (b : RBody) (hb : b.static = true) :
    applyForcesBody g b = b := by
  rw [applyForcesBody]
  simp [hb]

lemma integrateBody_static (mv fc dt : ℝ) (b : RBody) (hb : b.static = true) :
    integrateBody mv fc dt b = b := by
  rw [integrateBody]
  simp [hb]

lemma addImpulse_static (b : RBody) (imp : Vec) (hb : b.static = true) :
    addImpulse b imp = b := by
  rw [addImpulse]
  simp [hb]

lemma resolvePosition_static_a (a b : RBody) (n : Vec) (pen : ℝ) (ha : a.static = true) :
    (resolvePosition a b n pen).1 = a := by
  rw [resolvePosition]
  simp only [ha, if_true]
  split_ifs <;> rfl

lemma resolvePosition_static_b (a b : RBody) (n : Vec) (pen : ℝ) (hb : b.static = true) :
    (resolvePosition a b n pen).2 = b := by
  rw [resolvePosition]
  simp only [hb, if_true]
  split_ifs <;> rfl

lemma applyFriction_static_a (a b : RBody) (n : Vec) (j : ℝ) (ha : a.static = true) :
    (applyFriction a b n j).1 = a := by
  rw [applyFriction]
  simp only [ha, if_true]
  split_ifs <;> rfl

lemma applyFriction_static_b (a b : RBody) (n : Vec) (j : ℝ) (hb : b.static = true) :
    (applyFriction a b n j).2 = b := by
  rw [applyFriction]
  simp only [hb, if_true]
  split_ifs <;> rfl

lemma resolveVelocity_static_a (a b : RBody) (n : Vec) (p : RBody × RBody)
    (h : resolveVelocity a b n = some p) (ha : a.static = true) : p.1 = a := by
  rw [resolveVelocity] at h
  simp only [ha, if_true] at h
  split_ifs at h
  all_goals try exact Option.noConfusion h
  all_goals obtain rfl := (Option.some.inj h).symm
  all_goals try rfl
  all_goals exact applyFriction_static_a _ _ _ _ ha

lemma resolveVelocity_static_b (a b : RBody) (n : Vec) (p : RBody × RBody)
    (h : resolveVelocity a b n = some p) (hb : b.static = true) : p.2 = b := by
  rw [resolveVelocity] at h
  simp only [hb, if_true] at h
  split_ifs at h
  all_goals try exact Option.noConfusion h
  all_goals obtain rfl := (Option.some.inj h).symm
  all_goals try rfl
  all_goals exact applyFriction_static_b _ _ _ _ hb

lemma get?_set_preserve {l : List RBody} {i k : ℕ} {x bdy : RBody}
    (hget : l.get? k = some bdy) (hx : k = i → x = bdy) :
    (l.set i x).get? k = some bdy := by
  by_cases hk : i = k
  · subst hk
    have hlen : i < l.length := by
      by_contra hno
      rw [List.get?_eq_none.mpr (le_of_not_lt hno)] at hget
      cases hget
    rw [List.get?_set_eq_of_lt x hlen, hx rfl]
  · rw [List.get?_set_ne x l hk]
    exact hget

/-- Every single engine operation leaves a static body exactly as it was. -/
lemma applyOp_preserves_static (s : List RBody) (op : EngineOp) (k : ℕ) (bdy : RBody)
    (hget : s.get? k = some bdy) (hst : bdy.static = true) :
    (applyOp s op).get? k = some bdy := by
  cases op with
  | forces g =>
    show (s.map (applyForcesBody g)).get? k = some bdy
    rw [List.get?_map, hget]
    simp [applyForcesBody_static g bdy hst]
  | integrate mv fc dt =>
    show (s.map (integrateBody mv fc dt)).get? k = some bdy
    rw [List.get?_map, hget]
    simp [integrateBody_static mv fc dt bdy hst]
  | resolvePos i j n pen =>
    rcases hi : s.get? i with _ | a <;> rcases hj : s.get? j with _ | b <;>
      simp only [applyOp, hi, hj]
    · exact hget
    · exact hget
    · exact hget
    · refine get?_set_preserve (get?_set_preserve hget ?_) ?_
      · intro hk
        subst hk
        rw [hi] at hget
        rw [← Option.some.inj hget] at hst ⊢
        exact resolvePosition_static_a _ _ _ _ hst
      · intro hk
        subst hk
        rw [hj] at hget
        rw [← Option.some.inj hget] at hst ⊢
        exact resolvePosition_static_b _ _ _ _ hst
  | resolveVel i j n =>
    rcases hi : s.get? i with _ | a <;> rcases hj : s.get? j with _ | b <;>
      simp only [applyOp, hi, hj]
    · exact hget
    · exact hget
    · exact hget
    · rcases hr : resolveVelocity a b n with _ | p <;> simp only [hr]
      · exact hget
      · refine get?_set_preserve (get?_set_preserve hget ?_) ?_
        · intro hk
          subst hk
          rw [hi] at hget
          rw [← Option.some.inj hget] at hst ⊢
          exact resolveVelocity_static_a _ _ _ _ hr hst
        · intro hk
          subst hk
          rw [hj] at hget
          rw [← Option.some.inj hget] at hst ⊢
          exact resolveVelocity_static_b _ _ _ _ hr hst
  | impulse i imp =>
    rcases hi : s.get? i with _ | b0 <;> simp only [applyOp, hi]
    · exact hget
    · refine get?_set_preserve hget ?_
      intro hk
      subst hk
      rw [hi] at hget
      rw [← Option.some.inj hget] at hst ⊢
      exact addImpulse_static _ _ hst

/-- C4: a static body's state — in particular its position and velocity —
is unchanged by any sequence of engine-step operations (force application,
integration, positional correction, velocity/friction resolution, impulse
application), hence by any number of `step(dt)` calls, which are compositions
of these operations. -/
theorem C4_static_body_position_velocity_fixed (ops : List EngineOp) (s : List RBody)
    (k : ℕ) (bdy : RBody) (hget : s.get? k = some bdy) (hst : bdy.static = true) :
    (applyOps ops s).get? k = some bdy := by
  induction ops generalizing s with
  | nil => exact hget
  | cons op rest ih =>
    have hstep : applyOps (op :: rest) s = applyOps rest (applyOp s op) := by
      simp [applyOps]
    rw [hstep]
    exact ih (applyOp s op) (applyOp_preserves_static s op k bdy hget hst)

/-- Witness for C4: a static body at (1,2) across a force pass, an
integration step, a contact resolution against body 0 itself and an
impulse. -/
theorem C4_static_body_position_velocity_fixed_witness :
    (applyOps
        [EngineOp.forces ⟨0, 981⟩, EngineOp.integrate 2000 (1 / 10) (1 / 60),
         EngineOp.resolveVel 0 0 ⟨1, 0⟩, EngineOp.impulse 0 ⟨3, 3⟩]
        [mkPhysicsBody ⟨1, 2⟩ (.finite 1) true]).get? 0 =
      some (mkPhysicsBody ⟨1, 2⟩ (.finite 1) true) :=
  C4_static_body_position_velocity_fixed _ _ 0 _ rfl rfl

/-! ## C9: elastic head-on collision exchanges velocities -/

/-- When the relative velocity is parallel to the unit normal, the friction
step's tangential component is the zero vector, so friction returns both
bodies unchanged. -/
lemma applyFriction_head_on (A B : RBody) (n : Vec) (j c : ℝ)
    (hn : n.dot n = 1) (hrel : B.velocity - A.velocity = n.smul c) :
    applyFriction A B n j = (A, B) := by
  have htan : B.velocity - A.velocity - n.smul ((B.velocity - A.velocity).dot n) =
      ⟨0, 0⟩ := by
    rw [hrel]
    simp only [Vec.dot_def] at hn
    simp only [Vec.smul_def, Vec.sub_def, Vec.dot_def, Vec.x_mk, Vec.y_mk, Vec.mk.injEq]
    constructor
    · linear_combination (-(n.x * c)) * hn
    · linear_combination (-(n.y * c)) * hn
  simp only [applyFriction]
  rw [htan, Vec.magnitude_zero]
  rw [if_pos (by norm_num : (0 : ℝ) < 1e-2)]

/-- C9: for two non-static bodies of equal (inverse) mass with restitution 1
on both and friction 0 on both, colliding exactly head-on (relative velocity
parallel to the unit contact normal, and closing), resolving the contact
exchanges the two velocities exactly. -/
theorem C9_elastic_head_on_velocity_exchange (a b : RBody) (n : Vec) (w : ℝ)
    (hsa : a.static = false) (hsb : b.static = false)
    (him : b.invMass = a.invMass) (himpos : 0 < a.invMass)
    (hra : a.restitution = 1) (hrb : b.restitution = 1)
    (hfa : a.friction = 0) (hfb : b.friction = 0)
    (hn : n.dot n = 1)
    (hrel : b.velocity - a.velocity = n.smul w)
    (hclose : w < 0) :
    ∃ p, resolveVelocity a b n = some p ∧
      p.1.velocity = b.velocity ∧ p.2.velocity = a.velocity := by
  have hne : a.invMass ≠ 0 := ne_of_gt himpos
  have hrx := congrArg Vec.x hrel
  have hry := congrArg Vec.y hrel
  simp only [Vec.sub_def, Vec.smul_def, Vec.x_mk, Vec.y_mk] at hrx hry
  have hvan : (b.velocity - a.velocity).dot n = w := by
    rw [hrel]
    simp only [Vec.dot_def] at hn
    simp only [Vec.smul_def, Vec.dot_def, Vec.x_mk, Vec.y_mk]
    linear_combination w * hn
  have hden : a.invMass + a.invMass ≠ 0 := by
    intro h
    exact hne (by linarith)
  have hsc : -(1 + 1) * w / (a.invMass + a.invMass) * a.invMass = -w := by
    rw [div_mul_eq_mul_div]
    rw [div_eq_iff hden]
    ring
  simp only [resolveVelocity]
  rw [hvan]
  rw [if_neg (not_lt.mpr (le_of_lt hclose))]
  simp only [hsa, hsb, Bool.false_eq_true, if_false]
  rw [hra, hrb, him, min_self]
  rw [if_neg hden]
  have hA : a.velocity -
      (n.smul (-(1 + 1) * w / (a.invMass + a.invMass))).smul a.invMass =
      b.velocity := by
    apply Vec.ext'
    · simp only [Vec.smul_def, Vec.sub_def, Vec.x_mk, Vec.y_mk]
      linear_combination (-n.x) * hsc - hrx
    · simp only [Vec.smul_def, Vec.sub_def, Vec.x_mk, Vec.y_mk]
      linear_combination (-n.y) * hsc - hry
  have hB : b.velocity +
      (n.smul (-(1 + 1) * w / (a.invMass + a.invMass))).smul a.invMass =
      a.velocity := by
    apply Vec.ext'
    · simp only [Vec.smul_def, Vec.add_def, Vec.x_mk, Vec.y_mk]
      linear_combination n.x * hsc + hrx
    · simp only [Vec.smul_def, Vec.add_def, Vec.x_mk, Vec.y_mk]
      linear_combination n.y * hsc + hry
  rw [hA, hB]
  have hfr := applyFriction_head_on
    ⟨a.position, b.velocity, a.acceleration, false, a.invMass, a.mass, 1, a.friction,
      a.dragCoefficient, a.forces⟩
    ⟨b.position, a.velocity, b.acceleration, false, a.invMass, b.mass, 1, b.friction,
      b.dragCoefficient, b.forces⟩
    n (-(1 + 1) * w / (a.invMass + a.invMass)) (-w) hn (by
      show Vec.sub a.velocity b.velocity = n.smul (-w)
      apply Vec.ext'
      · simp only [Vec.sub, Vec.smul]
        linear_combination -hrx
      · simp only [Vec.sub, Vec.smul]
        linear_combination -hry)
  rw [hfr]
  exact ⟨_, rfl, rfl, rfl⟩

/-- Witness for C9: unit-inverse-mass bodies moving at (1,0) and (−1,0)
against the unit normal (1,0): their velocities are exchanged. -/
theorem C9_elastic_head_on_velocity_exchange_witness :
    ∃ p, resolveVelocity
        { position := ⟨0, 0⟩, velocity := ⟨1, 0⟩, acceleration := ⟨0, 0⟩, static := false,
          invMass := 1, mass := .finite 1, restitution := 1, friction := 0,
          dragCoefficient := 0.1, forces := [] }
        { position := ⟨2, 0⟩, velocity := ⟨-1, 0⟩, acceleration := ⟨0, 0⟩, static := false,
          invMass := 1, mass := .finite 1, restitution := 1, friction := 0,
          dragCoefficient := 0.1, forces := [] } ⟨1, 0⟩ = some p ∧
      p.1.velocity = Vec.mk (-1) 0 ∧ p.2.velocity = Vec.mk 1 0 := by
  have h := C9_elastic_head_on_velocity_exchange
    { position := ⟨0, 0⟩, velocity := ⟨1, 0⟩, acceleration := ⟨0, 0⟩, static := false,
      invMass := 1, mass := .finite 1, restitution := 1, friction := 0,
      dragCoefficient := 0.1, forces := [] }
    { position := ⟨2, 0⟩, velocity := ⟨-1, 0⟩, acceleration := ⟨0, 0⟩, static := false,
      invMass := 1, mass := .finite 1, restitution := 1, friction := 0,
      dragCoefficient := 0.1, forces := [] } ⟨1, 0⟩ (-2)
    rfl rfl rfl (by norm_num) rfl rfl rfl rfl
    (by simp [Vec.dot_def])
    (by apply Vec.ext' <;> norm_num)
    (by norm_num)
  obtain ⟨p, hp, h1, h2⟩ := h
  exact ⟨p, hp, h1, h2⟩

/-! ## C7: the ring gap interval test -/

lemma mod360_nonneg (x : ℚ) : 0 ≤ mod360 x := by
  rw [mod360]
  have h := Int.floor_le (x / 360)
  have h' : (360 : ℚ) * (⌊x / 360⌋ : ℤ) ≤ 360 * (x / 360) := by
    have h360 : (0 : ℚ) < 360 := by norm_num
    exact mul_le_mul_of_nonneg_left h (le_of_lt h360)
  have hxx : (360 : ℚ) * (x / 360) = x := by field_simp
  linarith

lemma mod360_lt (x : ℚ) : mod360 x < 360 := by
  rw [mod360]
  have h := Int.lt_floor_add_one (x / 360)
  have h' : (360 : ℚ) * (x / 360) < 360 * ((⌊x / 360⌋ : ℤ) + 1) := by
    have h360 : (0 : ℚ) < 360 := by norm_num
    exact (mul_lt_mul_left h360).mpr h
  have hxx : (360 : ℚ) * (x / 360) = x := by field_simp
  push_cast at h'
  linarith

lemma mod360_eq_self {x : ℚ} (h0 : 0 ≤ x) (h1 : x < 360) : mod360 x = x := by
  rw [mod360]
  have hfl : ⌊x / 360⌋ = 0 := by
    rw [Int.floor_eq_zero_iff]
    constructor
    · positivity
    · rw [div_lt_one (by norm_num : (0 : ℚ) < 360)]
      exact h1
  rw [hfl]
  push_cast
  ring

lemma mod360_add_int (x : ℚ) (k : ℤ) : mod360 (x + 360 * k) = mod360 x := by
  rw [mod360, mod360]
  have hdiv : (x + 360 * k) / 360 = x / 360 + k := by
    field_simp
    ring
  rw [hdiv, Int.floor_add_int]
  push_cast
  ring

lemma mod360_sub_mod360_right (x y : ℚ) : mod360 (x - mod360 y) = mod360 (x - y) := by
  have h : x - mod360 y = (x - y) + 360 * (⌊y / 360⌋ : ℤ) := by
    rw [mod360]
    push_cast
    ring
  rw [h, mod360_add_int]

lemma mod360_sub_cases {A g : ℚ} (hA0 : 0 ≤ A) (hA1 : A < 360) (hg0 : 0 ≤ g)
    (hg1 : g < 360) :
    mod360 (A - g) = if g ≤ A then A - g else A - g + 360 := by
  split_ifs with h
  · apply mod360_eq_self
    · linarith
    · linarith
  · have h2 := mod360_add_int (A - g + 360) (-1)
    have harg : A - g + 360 + 360 * ((-1 : ℤ) : ℚ) = A - g := by push_cast; ring
    rw [harg] at h2
    rw [h2]
    apply mod360_eq_self
    · linarith
    · linarith

/-- C7 (amended): for every ring with `0 < gap_angle < 360`, `point_in_gap`
holds exactly when the point's angle, normalized to [0, 360), lies in
`[gap_start + rotation, gap_start + rotation + gap_angle]` modulo 360°
(wrap-around across 0° included), and for `gap_angle = 0` it is always
false.  (For `gap_angle ≥ 360` — also a positive gap angle — the code
disagrees with the interval reading: see the counterexample.) -/
theorem C7_point_in_gap_interval (r : RingQ) (angle0 : ℚ) :
    (0 < r.gapAngle → r.gapAngle < 360 →
      (r.pointInGapAngle angle0 = true ↔ specGapMembership r angle0)) ∧
    (r.gapAngle = 0 → r.pointInGapAngle angle0 = false) := by
  constructor
  · intro h0 h1
    have hgap : r.hasGap = true := decide_eq_true h0
    rw [RingQ.pointInGapAngle, specGapMembership]
    simp only [hgap, not_true, Bool.false_eq_true, if_false]
    set A := mod360 (angle0 + 360) with hA
    set g := mod360 (r.gapStart + r.rotation) with hg
    have hA0 : 0 ≤ A := mod360_nonneg _
    have hA1 : A < 360 := mod360_lt _
    have hg0 : 0 ≤ g := mod360_nonneg _
    have hg1 : g < 360 := mod360_lt _
    rw [← mod360_sub_mod360_right A (r.gapStart + r.rotation), ← hg]
    rw [mod360_sub_cases hA0 hA1 hg0 hg1]
    by_cases hcase : g + r.gapAngle < 360
    · have he : mod360 (g + r.gapAngle) = g + r.gapAngle :=
        mod360_eq_self (by linarith) hcase
      rw [he]
      rw [if_pos (by linarith : g ≤ g + r.gapAngle)]
      simp only [decide_eq_true_eq]
      split_ifs with hga
      · constructor
        · intro ⟨_, h2⟩
          linarith
        · intro hle
          exact ⟨hga, by linarith⟩
      · constructor
        · intro ⟨hgA, _⟩
          exact absurd hgA hga
        · intro hle
          linarith
    · have he : mod360 (g + r.gapAngle) = g + r.gapAngle - 360 := by
        have h2 := mod360_add_int (g + r.gapAngle - 360) 1
        have harg : g + r.gapAngle - 360 + 360 * ((1 : ℤ) : ℚ) = g + r.gapAngle := by
          push_cast
          ring
        rw [harg] at h2
        rw [h2]
        apply mod360_eq_self
        · linarith
        · linarith
      rw [he]
      rw [if_neg (by linarith : ¬ g ≤ g + r.gapAngle - 360)]
      simp only [decide_eq_true_eq]
      split_ifs with hga
      · constructor
        · intro _
          linarith
        · intro _
          exact Or.inl (ge_iff_le.mpr hga)
      · constructor
        · intro hor
          rcases hor with hge | hle
          · exact absurd (ge_iff_le.mp hge) hga
          · linarith
        · intro hle
          exact Or.inr (by linarith)
  · intro h
    rw [RingQ.pointInGapAngle]
    have : r.hasGap = false := by
      rw [RingQ.hasGap, h]
      norm_num
    rw [this]
    norm_num

/-- C7 counterexample: gap_angle = 360 is a positive gap angle, the point at
angle 90° lies in the interval `[0, 0 + 360]` modulo 360°, yet
`point_in_gap` reports false (the code computes `gap_end = (0 + 360) % 360 =
0` and then tests `0 ≤ 90 ≤ 0`). -/
theorem C7_point_in_gap_counterexample :
    RingQ.pointInGapAngle ⟨360, 0, 0⟩ 90 = false ∧
    specGapMembership ⟨360, 0, 0⟩ 90 := by
  constructor
  · rw [RingQ.pointInGapAngle]
    norm_num [RingQ.hasGap, mod360]
  · rw [specGapMembership]
    norm_num [mod360]

/-- Witness for C7 at a ring with a 90° gap starting at 0° and the point at
angle 45° (inside the gap), plus the gap_angle = 0 case. -/
theorem C7_point_in_gap_interval_witness :
    (RingQ.pointInGapAngle ⟨90, 0, 0⟩ 45 = true ↔ specGapMembership ⟨90, 0, 0⟩ 45) ∧
    RingQ.pointInGapAngle ⟨0, 5, 7⟩ 33 = false := by
  constructor
  · exact (C7_point_in_gap_interval ⟨90, 0, 0⟩ 45).1 (by norm_num) (by norm_num)
  · exact (C7_point_in_gap_interval ⟨0, 5, 7⟩ 33).2 rfl

/-! ## C1: broad-phase lemmas — shapes, cells and the grid -/

lemma affine_between {a b t : ℚ} (ht0 : 0 ≤ t) (ht1 : t ≤ 1) :
    min a b ≤ a + (b - a) * t ∧ a + (b - a) * t ≤ max a b := by
  rcases le_total a b with hab | hab
  · rw [min_eq_left hab, max_eq_right hab]
    constructor <;> nlinarith
  · rw [min_eq_right hab, max_eq_left hab]
    constructor <;> nlinarith

/-- The closest point on a segment lies between the endpoint extremes on
both axes. -/
lemma closestPointQ_between (s e p : ℚ × ℚ) :
    (min s.1 e.1 ≤ (closestPointQ s e p).1 ∧ (closestPointQ s e p).1 ≤ max s.1 e.1) ∧
    (min s.2 e.2 ≤ (closestPointQ s e p).2 ∧ (closestPointQ s e p).2 ≤ max s.2 e.2) := by
  rw [closestPointQ]
  split_ifs with h0
  · exact ⟨⟨min_le_left _ _, le_max_left _ _⟩, ⟨min_le_left _ _, le_max_left _ _⟩⟩
  · have ht0 : (0 : ℚ) ≤ max 0 (min 1 (((p.1 - s.1) * (e.1 - s.1) + (p.2 - s.2) * (e.2 - s.2)) /
        ((e.1 - s.1) * (e.1 - s.1) + (e.2 - s.2) * (e.2 - s.2)))) := le_max_left _ _
    have ht1 : max 0 (min 1 (((p.1 - s.1) * (e.1 - s.1) + (p.2 - s.2) * (e.2 - s.2)) /
        ((e.1 - s.1) * (e.1 - s.1) + (e.2 - s.2) * (e.2 - s.2)))) ≤ 1 := by
      rw [max_le_iff]
      exact ⟨by norm_num, min_le_left _ _⟩
    exact ⟨affine_between ht0 ht1, affine_between ht0 ht1⟩

/-- A valid shape is contained in its bounding box. -/
lemma containsPoint_inBox (b : BodyQ) (hv : b.valid) (p : ℚ × ℚ)
    (hc : b.containsPoint p) : inBox p b.boundingBox := by
  cases b with
  | circle c r =>
    rw [BodyQ.valid] at hv
    rw [BodyQ.containsPoint, distSq] at hc
    rw [BodyQ.boundingBox, inBox]
    refine ⟨?_, ?_, ?_, ?_⟩ <;> simp only [] <;> nlinarith [sq_nonneg (p.1 - c.1), sq_nonneg (p.2 - c.2)]
  | segment s e th =>
    rw [BodyQ.valid] at hv
    rw [BodyQ.containsPoint, distSq] at hc
    rw [BodyQ.boundingBox, inBox]
    obtain ⟨⟨hx1, hx2⟩, ⟨hy1, hy2⟩⟩ := closestPointQ_between s e p
    have hdx : (p.1 - (closestPointQ s e p).1) * (p.1 - (closestPointQ s e p).1) ≤
        (th / 2) * (th / 2) := by nlinarith [sq_nonneg (p.2 - (closestPointQ s e p).2)]
    have hdy : (p.2 - (closestPointQ s e p).2) * (p.2 - (closestPointQ s e p).2) ≤
        (th / 2) * (th / 2) := by nlinarith [sq_nonneg (p.1 - (closestPointQ s e p).1)]
    refine ⟨?_, ?_, ?_, ?_⟩ <;> simp only [] <;> nlinarith

/-- The clamped cell column is monotone in the coordinate. -/
lemma cellCoord_mono {cs : ℚ} (hcs : 0 < cs) (lim : ℤ) {x y : ℚ} (hxy : x ≤ y) :
    max 0 (min ⌊x / cs⌋ lim) ≤ max 0 (min ⌊y / cs⌋ lim) := by
  have hfl : ⌊x / cs⌋ ≤ ⌊y / cs⌋ := Int.floor_le_floor (by gcongr)
  exact max_le_max le_rfl (min_le_min hfl le_rfl)

lemma mem_intRange {lo hi z : ℤ} (h1 : lo ≤ z) (h2 : z ≤ hi) : z ∈ intRange lo hi := by
  rw [intRange]
  simp only [List.mem_map, List.mem_range]
  refine ⟨(z - lo).toNat, ?_, ?_⟩
  · omega
  · rw [Int.ofNat_eq_natCast]
    omega

/-- The clamped cell of any point of a box is among the box's cells. -/
lemma cell_mem_cellsForBox (w h cs : ℚ) (hcs : 0 < cs) (bb : Box) (p : ℚ × ℚ)
    (hp : inBox p bb) :
    getCellCoords w h cs p.1 p.2 ∈ cellsForBox w h cs bb := by
  obtain ⟨h1, h2, h3, h4⟩ := hp
  rw [cellsForBox]
  refine List.mem_flatten.mpr
    ⟨(intRange (getCellCoords w h cs bb.minX bb.minY).1
        (getCellCoords w h cs bb.maxX bb.maxY).1).map
      (fun col => (col, (getCellCoords w h cs p.1 p.2).2)), ?_, ?_⟩
  · refine List.mem_map.mpr ⟨(getCellCoords w h cs p.1 p.2).2, ?_, rfl⟩
    exact mem_intRange (cellCoord_mono hcs _ h3) (cellCoord_mono hcs _ h4)
  · refine List.mem_map.mpr ⟨(getCellCoords w h cs p.1 p.2).1, ?_, rfl⟩
    exact mem_intRange (cellCoord_mono hcs _ h1) (cellCoord_mono hcs _ h2)

lemma insertCell_pres_keys {g : GridState} {c0 : ℤ × ℤ} (c : ℤ × ℤ) (k : ℕ)
    (h : c0 ∈ g.keys) : c0 ∈ (insertCell g c k).keys := by
  rw [insertCell]
  split_ifs with hc
  · exact h
  · exact List.mem_append_left _ h

lemma insertCell_pres_data {g : GridState} {c0 : ℤ × ℤ} {k0 : ℕ} (c : ℤ × ℤ) (k : ℕ)
    (h : k0 ∈ g.data c0) : k0 ∈ (insertCell g c k).data c0 := by
  simp only [insertCell]
  split_ifs with hc
  · exact List.mem_append_left _ h
  · exact h

lemma insertCell_self_key (g : GridState) (c : ℤ × ℤ) (k : ℕ) :
    c ∈ (insertCell g c k).keys := by
  rw [insertCell]
  split_ifs with hc
  · exact hc
  · exact List.mem_append_right _ (List.mem_singleton.mpr rfl)

lemma insertCell_self_data (g : GridState) (c : ℤ × ℤ) (k : ℕ) :
    k ∈ (insertCell g c k).data c := by
  simp only [insertCell, if_pos]
  exact List.mem_append_right _ (List.mem_singleton.mpr rfl)

lemma foldl_insertCell_pres (k : ℕ) (cells : List (ℤ × ℤ)) (g : GridState) (c0 : ℤ × ℤ)
    (hk : c0 ∈ g.keys) :
    c0 ∈ (cells.foldl (fun g' c' => insertCell g' c' k) g).keys := by
  induction cells generalizing g with
  | nil => exact hk
  | cons c rest ih =>
    simp only [List.foldl_cons]
    exact ih _ (insertCell_pres_keys c k hk)

lemma foldl_insertCell_pres_data (k : ℕ) (cells : List (ℤ × ℤ)) (g : GridState)
    (c0 : ℤ × ℤ) (k0 : ℕ) (hk : k0 ∈ g.data c0) :
    k0 ∈ (cells.foldl (fun g' c' => insertCell g' c' k) g).data c0 := by
  induction cells generalizing g with
  | nil => exact hk
  | cons c rest ih =>
    simp only [List.foldl_cons]
    exact ih _ (insertCell_pres_data c k hk)

lemma foldl_insertCell_mem (k : ℕ) (cells : List (ℤ × ℤ)) (g : GridState) (c : ℤ × ℤ)
    (hc : c ∈ cells) :
    c ∈ (cells.foldl (fun g' c' => insertCell g' c' k) g).keys ∧
    k ∈ (cells.foldl (fun g' c' => insertCell g' c' k) g).data c := by
  induction cells generalizing g with
  | nil => cases hc
  | cons c1 rest ih =>
    simp only [List.foldl_cons]
    rcases List.mem_cons.mp hc with rfl | hmem
    · constructor
      · exact foldl_insertCell_pres _ _ _ _ (insertCell_self_key g c k)
      · exact foldl_insertCell_pres_data _ _ _ _ _ (insertCell_self_data g c k)
    · exact ih _ hmem

lemma buildGridAux_pres (w h cs : ℚ) (boxes : List Box) (k0 : ℕ) (g : GridState)
    (c : ℤ × ℤ) (kk : ℕ) (hkey : c ∈ g.keys) (hdata : kk ∈ g.data c) :
    c ∈ (buildGridAux w h cs k0 boxes g).keys ∧
    kk ∈ (buildGridAux w h cs k0 boxes g).data c := by
  induction boxes generalizing k0 g with
  | nil => exact ⟨hkey, hdata⟩
  | cons bb rest ih =>
    simp only [buildGridAux]
    exact ih _ _ (foldl_insertCell_pres _ _ _ _ hkey)
      (foldl_insertCell_pres_data _ _ _ _ _ hdata)

lemma buildGridAux_mem (w h cs : ℚ) (boxes : List Box) (k0 : ℕ) (g : GridState)
    (i : ℕ) (bb : Box) (hgb : boxes.get? i = some bb) (c : ℤ × ℤ)
    (hc : c ∈ cellsForBox w h cs bb) :
    c ∈ (buildGridAux w h cs k0 boxes g).keys ∧
    (k0 + i) ∈ (buildGridAux w h cs k0 boxes g).data c := by
  induction boxes generalizing k0 g i with
  | nil => cases hgb
  | cons b0 rest ih =>
    cases i with
    | zero =>
      obtain rfl := Option.some.inj hgb
      simp only [buildGridAux]
      have hmem := foldl_insertCell_mem k0 (cellsForBox w h cs b0) g c hc
      rw [Nat.add_zero]
      exact buildGridAux_pres w h cs rest (k0 + 1) _ c k0 hmem.1 hmem.2
    | succ i' =>
      simp only [buildGridAux]
      have heq : k0 + (i' + 1) = (k0 + 1) + i' := by omega
      rw [heq]
      exact ih (k0 + 1) _ i' hgb

lemma pairsOfList_mem {l : List ℕ} {a b : ℕ} (ha : a ∈ l) (hb : b ∈ l) (hne : a ≠ b) :
    (a, b) ∈ pairsOfList l ∨ (b, a) ∈ pairsOfList l := by
  induction l with
  | nil => cases ha
  | cons x xs ih =>
    rw [pairsOfList]
    rcases List.mem_cons.mp ha with rfl | ha'
    · have hb' : b ∈ xs := by
        rcases List.mem_cons.mp hb with rfl | hmem
        · exact absurd rfl hne
        · exact hmem
      exact Or.inl (List.mem_append_left _ (List.mem_map.mpr ⟨b, hb', rfl⟩))
    · rcases List.mem_cons.mp hb with rfl | hb'
      · exact Or.inr (List.mem_append_left _ (List.mem_map.mpr ⟨a, ha', rfl⟩))
      · rcases ih ha' hb' with hp | hp
        · exact Or.inl (List.mem_append_right _ hp)
        · exact Or.inr (List.mem_append_right _ hp)

lemma dedupPairs_covers : ∀ (ps seen : List (ℕ × ℕ)) (p : ℕ × ℕ), p ∈ ps →
    pairKey p ∈ seen ∨ ∃ q ∈ dedupPairs seen ps, pairKey q = pairKey p := by
  intro ps
  induction ps with
  | nil =>
    intro seen p hp
    cases hp
  | cons p0 rest ih =>
    intro seen p hp
    rw [dedupPairs]
    split_ifs with hseen
    · rcases List.mem_cons.mp hp with rfl | hp'
      · exact Or.inl hseen
      · exact ih seen p hp'
    · rcases List.mem_cons.mp hp with rfl | hp'
      · exact Or.inr ⟨p, List.mem_cons_self _ _, rfl⟩
      · rcases ih (pairKey p0 :: seen) p hp' with hkey | ⟨q, hq, hqkey⟩
        · rcases List.mem_cons.mp hkey with heq | hmem
          · exact Or.inr ⟨p0, List.mem_cons_self _ _, heq.symm⟩
          · exact Or.inl hmem
        · exact Or.inr ⟨q, List.mem_cons_of_mem _ hq, hqkey⟩

lemma pairKey_swap (a b : ℕ) : pairKey (b, a) = pairKey (a, b) := by
  rw [pairKey, pairKey]
  rw [min_comm, max_comm]

/-- The SpatialGrid half of C1: any two distinct valid bodies whose shapes
share a point give rise to a candidate pair. -/
lemma grid_no_false_negative (w h cs : ℚ) (hcs : 0 < cs) (bodies : List BodyQ)
    (i j : ℕ) (bi bj : BodyQ)
    (hgi : bodies.get? i = some bi) (hgj : bodies.get? j = some bj) (hij : i ≠ j)
    (hvi : bi.valid) (hvj : bj.valid)
    (hover : ∃ p, bi.containsPoint p ∧ bj.containsPoint p) :
    ∃ pr ∈ getPotentialCollisions (buildGrid w h cs (bodies.map BodyQ.boundingBox)),
      pairKey pr = pairKey (i, j) := by
  obtain ⟨p, hpi, hpj⟩ := hover
  have hboxi : inBox p bi.boundingBox := containsPoint_inBox bi hvi p hpi
  have hboxj : inBox p bj.boundingBox := containsPoint_inBox bj hvj p hpj
  have hci : getCellCoords w h cs p.1 p.2 ∈ cellsForBox w h cs bi.boundingBox :=
    cell_mem_cellsForBox w h cs hcs _ p hboxi
  have hcj : getCellCoords w h cs p.1 p.2 ∈ cellsForBox w h cs bj.boundingBox :=
    cell_mem_cellsForBox w h cs hcs _ p hboxj
  have hmi : (bodies.map BodyQ.boundingBox).get? i = some bi.boundingBox := by
    rw [List.get?_map, hgi]
    rfl
  have hmj : (bodies.map BodyQ.boundingBox).get? j = some bj.boundingBox := by
    rw [List.get?_map, hgj]
    rfl
  have hki := buildGridAux_mem w h cs (bodies.map BodyQ.boundingBox) 0 ⟨[], fun _ => []⟩
    i _ hmi _ hci
  have hkj := buildGridAux_mem w h cs (bodies.map BodyQ.boundingBox) 0 ⟨[], fun _ => []⟩
    j _ hmj _ hcj
  rw [Nat.zero_add] at hki hkj
  rw [getPotentialCollisions]
  have hvalmem : (buildGrid w h cs (bodies.map BodyQ.boundingBox)).data
        (getCellCoords w h cs p.1 p.2) ∈
      ((buildGrid w h cs (bodies.map BodyQ.boundingBox)).keys.map
        (buildGrid w h cs (bodies.map BodyQ.boundingBox)).data) :=
    List.mem_map.mpr ⟨_, hki.1, rfl⟩
  rcases pairsOfList_mem hki.2 hkj.2 hij with hpair | hpair
  · have hjoin : (i, j) ∈ (((buildGrid w h cs (bodies.map BodyQ.boundingBox)).keys.map
        (buildGrid w h cs (bodies.map BodyQ.boundingBox)).data).map pairsOfList).flatten :=
      List.mem_flatten.mpr ⟨_, List.mem_map.mpr ⟨_, hvalmem, rfl⟩, hpair⟩
    rcases dedupPairs_covers _ [] _ hjoin with habs | ⟨q, hq, hkey⟩
    · cases habs
    · exact ⟨q, hq, hkey⟩
  · have hjoin : (j, i) ∈ (((buildGrid w h cs (bodies.map BodyQ.boundingBox)).keys.map
        (buildGrid w h cs (bodies.map BodyQ.boundingBox)).data).map pairsOfList).flatten :=
      List.mem_flatten.mpr ⟨_, List.mem_map.mpr ⟨_, hvalmem, rfl⟩, hpair⟩
    rcases dedupPairs_covers _ [] _ hjoin with habs | ⟨q, hq, hkey⟩
    · cases habs
    · exact ⟨q, hq, hkey.trans (pairKey_swap i j)⟩

/-! ## C1: quadtree lemmas -/

set_option maxHeartbeats 1000000 in
/-- Characterization of `get_index`: each quadrant index pins the box
strictly inside that quadrant's half-planes. -/
lemma qtGetIndex_spec {bd : QBounds} {b : Box} {i : ℕ} (h : qtGetIndex bd b = some i) :
    (i = 1 ∧ b.maxX < bd.x + bd.w / 2 ∧ b.maxY < bd.y + bd.h / 2) ∨
    (i = 2 ∧ b.maxX < bd.x + bd.w / 2 ∧ b.minY > bd.y + bd.h / 2) ∨
    (i = 0 ∧ b.minX > bd.x + bd.w / 2 ∧ b.maxY < bd.y + bd.h / 2) ∨
    (i = 3 ∧ b.minX > bd.x + bd.w / 2 ∧ b.minY > bd.y + bd.h / 2) := by
  simp only [qtGetIndex] at h
  split_ifs at h <;> try exact Option.noConfusion h
  all_goals obtain rfl := (Option.some.inj h).symm
  all_goals tauto

/-- Boxes indexed into different quadrants at the same node are disjoint. -/
lemma qtIndex_disjoint {bd : QBounds} {b q : Box} {i1 i2 : ℕ}
    (h1 : qtGetIndex bd b = some i1) (h2 : qtGetIndex bd q = some i2)
    (hne : i1 ≠ i2) : ¬ boxesOverlap b q := by
  intro hov
  rw [boxesOverlap] at hov
  obtain ⟨p, hp1, hp2⟩ := hov
  rw [inBox] at hp1 hp2
  obtain ⟨ha1, ha2, ha3, ha4⟩ := hp1
  obtain ⟨hb1, hb2, hb3, hb4⟩ := hp2
  rcases qtGetIndex_spec h1 with ⟨he1, hA1, hA2⟩ | ⟨he1, hA1, hA2⟩ | ⟨he1, hA1, hA2⟩ |
      ⟨he1, hA1, hA2⟩ <;>
    rcases qtGetIndex_spec h2 with ⟨he2, hB1, hB2⟩ | ⟨he2, hB1, hB2⟩ | ⟨he2, hB1, hB2⟩ |
      ⟨he2, hB1, hB2⟩ <;>
    first
      | exact hne (he1.trans he2.symm)
      | linarith

lemma qtAddObject_mem (t : QT) (b x : Box) :
    x ∈ qtAllObjects (qtAddObject t b) ↔ x = b ∨ x ∈ qtAllObjects t := by
  cases t <;>
    simp only [qtAddObject, qtAllObjects, List.mem_append, List.mem_singleton] <;>
    tauto

/-- The redistribution loop's objects are exactly those of the scanned list,
the kept list and the four children (given that the inserter adds exactly
its argument). -/
lemma qtRedistributeWith_mem (ins : QT → Box → QT) (bd : QBounds) (mo ml lv : ℕ)
    (hins : ∀ t b x, x ∈ qtAllObjects (ins t b) ↔ x = b ∨ x ∈ qtAllObjects t) :
    ∀ (l kept : List Box) (ne nw sw se : QT) (x : Box),
      x ∈ qtAllObjects (qtRedistributeWith ins bd mo ml lv l kept ne nw sw se) ↔
        x ∈ l ∨ x ∈ kept ∨ x ∈ qtAllObjects ne ∨ x ∈ qtAllObjects nw ∨
          x ∈ qtAllObjects sw ∨ x ∈ qtAllObjects se := by
  intro l
  induction l with
  | nil =>
    intro kept ne nw sw se x
    simp only [qtRedistributeWith, qtAllObjects, List.mem_append, List.not_mem_nil,
      false_or]
  | cons o rest ih =>
    intro kept ne nw sw se x
    rw [qtRedistributeWith]
    split_ifs with h0 h1 h2 h3
    · rw [ih]
      rw [hins]
      simp only [List.mem_cons]
      tauto
    · rw [ih]
      rw [hins]
      simp only [List.mem_cons]
      tauto
    · rw [ih]
      rw [hins]
      simp only [List.mem_cons]
      tauto
    · rw [ih]
      rw [hins]
      simp only [List.mem_cons]
      tauto
    · rw [ih]
      simp only [List.mem_cons, List.mem_append, List.mem_singleton]
      tauto

/-- `insert` adds exactly the inserted object, for any fuel. -/
lemma qtInsertF_mem : ∀ (f : ℕ) (t : QT) (b x : Box),
    x ∈ qtAllObjects (qtInsertF f t b) ↔ x = b ∨ x ∈ qtAllObjects t := by
  intro f
  induction f with
  | zero => exact fun t b x => qtAddObject_mem t b x
  | succ f ih =>
    intro t b x
    cases t with
    | leaf bd mo ml lv objs =>
      rw [qtInsertF]
      simp only []
      split_ifs with hcap
      · rw [qtRedistributeWith_mem (qtInsertF f) bd mo ml lv ih]
        simp only [qtAllObjects, qtFreshChildren, List.mem_append, List.mem_singleton,
          List.not_mem_nil, or_false, false_or]
        tauto
      · simp only [qtAllObjects, List.mem_append, List.mem_singleton]
        tauto
    | quad bd mo ml lv objs ne nw sw se =>
      rw [qtInsertF]
      simp only []
      split_ifs with h0 h1 h2 h3 hcap
      · simp only [qtAllObjects, List.mem_append, ih]
        tauto
      · simp only [qtAllObjects, List.mem_append, ih]
        tauto
      · simp only [qtAllObjects, List.mem_append, ih]
        tauto
      · simp only [qtAllObjects, List.mem_append, ih]
        tauto
      · rw [qtRedistributeWith_mem (qtInsertF f) bd mo ml lv ih]
        simp only [qtAllObjects, List.mem_append, List.mem_singleton, List.not_mem_nil,
          or_false, false_or]
        tauto
      · simp only [qtAllObjects, List.mem_append, List.mem_singleton]
        tauto

/-- Redistribution preserves the placement invariant. -/
lemma qtRedistributeWith_wellPlaced (f : ℕ) (bd : QBounds) (mo ml lv : ℕ)
    (hwp : ∀ t b, qtWellPlaced t → qtWellPlaced (qtInsertF f t b)) :
    ∀ (l kept : List Box) (ne nw sw se : QT),
      (∀ o ∈ qtAllObjects ne, qtGetIndex bd o = some 0) →
      (∀ o ∈ qtAllObjects nw, qtGetIndex bd o = some 1) →
      (∀ o ∈ qtAllObjects sw, qtGetIndex bd o = some 2) →
      (∀ o ∈ qtAllObjects se, qtGetIndex bd o = some 3) →
      qtWellPlaced ne → qtWellPlaced nw → qtWellPlaced sw → qtWellPlaced se →
      qtWellPlaced (qtRedistributeWith (qtInsertF f) bd mo ml lv l kept ne nw sw se) := by
  intro l
  induction l with
  | nil =>
    intro kept ne nw sw se hne hnw hsw hse wne wnw wsw wse
    rw [qtRedistributeWith, qtWellPlaced]
    exact ⟨hne, hnw, hsw, hse, wne, wnw, wsw, wse⟩
  | cons o rest ih =>
    intro kept ne nw sw se hne hnw hsw hse wne wnw wsw wse
    rw [qtRedistributeWith]
    split_ifs with h0 h1 h2 h3
    · refine ih _ _ _ _ _ ?_ hnw hsw hse (hwp ne o wne) wnw wsw wse
      intro o' ho'
      rcases (qtInsertF_mem f ne o o').mp ho' with rfl | ho''
      · exact h0
      · exact hne o' ho''
    · refine ih _ _ _ _ _ hne ?_ hsw hse wne (hwp nw o wnw) wsw wse
      intro o' ho'
      rcases (qtInsertF_mem f nw o o').mp ho' with rfl | ho''
      · exact h1
      · exact hnw o' ho''
    · refine ih _ _ _ _ _ hne hnw ?_ hse wne wnw (hwp sw o wsw) wse
      intro o' ho'
      rcases (qtInsertF_mem f sw o o').mp ho' with rfl | ho''
      · exact h2
      · exact hsw o' ho''
    · refine ih _ _ _ _ _ hne hnw hsw ?_ wne wnw wsw (hwp se o wse)
      intro o' ho'
      rcases (qtInsertF_mem f se o o').mp ho' with rfl | ho''
      · exact h3
      · exact hse o' ho''
    · exact ih _ _ _ _ _ hne hnw hsw hse wne wnw wsw wse

/-- `insert` preserves the placement invariant, for any fuel. -/
lemma qtInsertF_wellPlaced : ∀ (f : ℕ) (t : QT) (b : Box),
    qtWellPlaced t → qtWellPlaced (qtInsertF f t b) := by
  intro f
  induction f with
  | zero =>
    intro t b hwp
    cases t with
    | leaf bd mo ml lv objs => trivial
    | quad bd mo ml lv objs ne nw sw se =>
      rw [qtWellPlaced] at hwp
      exact hwp
  | succ f ih =>
    intro t b hwp
    cases t with
    | leaf bd mo ml lv objs =>
      rw [qtInsertF]
      simp only []
      split_ifs with hcap
      · refine qtRedistributeWith_wellPlaced f bd mo ml lv ih _ _ _ _ _ _
          ?_ ?_ ?_ ?_ trivial trivial trivial trivial <;>
          (intro o ho; exact absurd ho (List.not_mem_nil o))
      · trivial
    | quad bd mo ml lv objs ne nw sw se =>
      rw [qtWellPlaced] at hwp
      obtain ⟨hne, hnw, hsw, hse, wne, wnw, wsw, wse⟩ := hwp
      rw [qtInsertF]
      simp only []
      split_ifs with h0 h1 h2 h3 hcap
      · rw [qtWellPlaced]
        refine ⟨?_, hnw, hsw, hse, ih ne b wne, wnw, wsw, wse⟩
        intro o' ho'
        rcases (qtInsertF_mem f ne b o').mp ho' with rfl | ho''
        · exact h0
        · exact hne o' ho''
      · rw [qtWellPlaced]
        refine ⟨hne, ?_, hsw, hse, wne, ih nw b wnw, wsw, wse⟩
        intro o' ho'
        rcases (qtInsertF_mem f nw b o').mp ho' with rfl | ho''
        · exact h1
        · exact hnw o' ho''
      · rw [qtWellPlaced]
        refine ⟨hne, hnw, ?_, hse, wne, wnw, ih sw b wsw, wse⟩
        intro o' ho'
        rcases (qtInsertF_mem f sw b o').mp ho' with rfl | ho''
        · exact h2
        · exact hsw o' ho''
      · rw [qtWellPlaced]
        refine ⟨hne, hnw, hsw, ?_, wne, wnw, wsw, ih se b wse⟩
        intro o' ho'
        rcases (qtInsertF_mem f se b o').mp ho' with rfl | ho''
        · exact h3
        · exact hse o' ho''
      · exact qtRedistributeWith_wellPlaced f bd mo ml lv ih _ _ _ _ _ _
          hne hnw hsw hse wne wnw wsw wse
      · rw [qtWellPlaced]
        exact ⟨hne, hnw, hsw, hse, wne, wnw, wsw, wse⟩

/-- On a well-placed tree, a query that is indexable at every split node
along its path retrieves every stored object whose box overlaps it. -/
lemma qtRetrieve_complete : ∀ (t : QT) (q x : Box), qtWellPlaced t → qtPathFits t q →
    x ∈ qtAllObjects t → boxesOverlap x q → x ∈ qtRetrieve t q := by
  intro t
  induction t with
  | leaf bd mo ml lv objs =>
    intro q x _ _ hx _
    rw [qtRetrieve]
    exact hx
  | quad bd mo ml lv objs ne nw sw se ihne ihnw ihsw ihse =>
    intro q x hwp hpf hx hov
    rw [qtWellPlaced] at hwp
    obtain ⟨hne, hnw, hsw, hse, wne, wnw, wsw, wse⟩ := hwp
    rw [qtPathFits] at hpf
    rw [qtRetrieve]
    rw [qtAllObjects] at hx
    simp only [List.mem_append] at hx ⊢
    split_ifs at hpf ⊢ with h0 h1 h2 h3
    · rcases hx with hobjs | hne' | hnw' | hsw' | hse'
      · exact Or.inr hobjs
      · exact Or.inl (ihne q x wne hpf hne' hov)
      · exact absurd hov (qtIndex_disjoint (hnw x hnw') h0 (by norm_num))
      · exact absurd hov (qtIndex_disjoint (hsw x hsw') h0 (by norm_num))
      · exact absurd hov (qtIndex_disjoint (hse x hse') h0 (by norm_num))
    · rcases hx with hobjs | hne' | hnw' | hsw' | hse'
      · exact Or.inr hobjs
      · exact absurd hov (qtIndex_disjoint (hne x hne') h1 (by norm_num))
      · exact Or.inl (ihnw q x wnw hpf hnw' hov)
      · exact absurd hov (qtIndex_disjoint (hsw x hsw') h1 (by norm_num))
      · exact absurd hov (qtIndex_disjoint (hse x hse') h1 (by norm_num))
    · rcases hx with hobjs | hne' | hnw' | hsw' | hse'
      · exact Or.inr hobjs
      · exact absurd hov (qtIndex_disjoint (hne x hne') h2 (by norm_num))
      · exact absurd hov (qtIndex_disjoint (hnw x hnw') h2 (by norm_num))
      · exact Or.inl (ihsw q x wsw hpf hsw' hov)
      · exact absurd hov (qtIndex_disjoint (hse x hse') h2 (by norm_num))
    · rcases hx with hobjs | hne' | hnw' | hsw' | hse'
      · exact Or.inr hobjs
      · exact absurd hov (qtIndex_disjoint (hne x hne') h3 (by norm_num))
      · exact absurd hov (qtIndex_disjoint (hnw x hnw') h3 (by norm_num))
      · exact absurd hov (qtIndex_disjoint (hsw x hsw') h3 (by norm_num))
      · exact Or.inl (ihse q x wse hpf hse' hov)

lemma buildQT_wellPlaced (bd : QBounds) (mo ml : ℕ) (objs : List Box) :
    qtWellPlaced (buildQT bd mo ml objs) := by
  rw [buildQT]
  have hgen : ∀ (l : List Box) (t : QT), qtWellPlaced t →
      qtWellPlaced (l.foldl (fun t' b => qtInsertF (ml + 1) t' b) t) := by
    intro l
    induction l with
    | nil => exact fun t ht => ht
    | cons b rest ih =>
      intro t ht
      simp only [List.foldl_cons]
      exact ih _ (qtInsertF_wellPlaced (ml + 1) t b ht)
  exact hgen objs _ trivial

lemma buildQT_mem (bd : QBounds) (mo ml : ℕ) (objs : List Box) (b : Box)
    (hb : b ∈ objs) : b ∈ qtAllObjects (buildQT bd mo ml objs) := by
  rw [buildQT]
  have hgen : ∀ (l : List Box) (t : QT), b ∈ l ∨ b ∈ qtAllObjects t →
      b ∈ qtAllObjects (l.foldl (fun t' b' => qtInsertF (ml + 1) t' b') t) := by
    intro l
    induction l with
    | nil =>
      intro t ht
      rcases ht with hmem | hmem
      · cases hmem
      · exact hmem
    | cons b0 rest ih =>
      intro t ht
      simp only [List.foldl_cons]
      apply ih
      rcases ht with hmem | hmem
      · rcases List.mem_cons.mp hmem with rfl | hmem'
        · exact Or.inr ((qtInsertF_mem _ _ _ _).mpr (Or.inl rfl))
        · exact Or.inl hmem'
      · exact Or.inr ((qtInsertF_mem _ _ _ _).mpr (Or.inr hmem))
  exact hgen objs _ (Or.inl hb)

/-- C1 (amended): the SpatialGrid broad phase is a conservative superset as
claimed — every pair of distinct valid bodies whose shapes share a point
appears among the candidate pairs of `get_potential_collisions` (up to the
identity pair key).  For the QuadTree, `retrieve` returns every stored
object whose bounding box overlaps the query's PROVIDED the query box is
indexable into a single quadrant (`get_index != -1`) at every split node
along its retrieval path; a query that straddles a split midline can miss
overlapping objects stored in subtrees (see the counterexample). -/
theorem C1_broad_phase_no_false_negatives :
    (∀ (w h cs : ℚ), 0 < cs → ∀ (bodies : List BodyQ) (i j : ℕ) (bi bj : BodyQ),
      bodies.get? i = some bi → bodies.get? j = some bj → i ≠ j →
      bi.valid → bj.valid →
      (∃ p, bi.containsPoint p ∧ bj.containsPoint p) →
      ∃ pr ∈ getPotentialCollisions (buildGrid w h cs (bodies.map BodyQ.boundingBox)),
        pairKey pr = pairKey (i, j)) ∧
    (∀ (bd : QBounds) (mo ml : ℕ) (objs : List Box) (q b : Box),
      qtPathFits (buildQT bd mo ml objs) q →
      b ∈ objs → boxesOverlap b q →
      b ∈ qtRetrieve (buildQT bd mo ml objs) q) := by
  constructor
  · intro w h cs hcs bodies i j bi bj hgi hgj hij hvi hvj hover
    exact grid_no_false_negative w h cs hcs bodies i j bi bj hgi hgj hij hvi hvj hover
  · intro bd mo ml objs q b hpf hb hov
    exact qtRetrieve_complete (buildQT bd mo ml objs) q b
      (buildQT_wellPlaced bd mo ml objs) hpf (buildQT_mem bd mo ml objs b hb) hov

set_option maxHeartbeats 4000000 in
/-- C1 counterexample (the QuadTree half of the claim as stated is false):
with `max_objects = 1` the root splits after two inserts, pushing the box
(30,30)-(49,49) into the NW child; the query (45,45)-(55,55) straddles both
split midlines (x = 50, y = 50), so `get_index` returns -1 for it and
`retrieve` returns only the root's own (empty) object list, missing the
stored overlapping box — a broad-phase false negative. -/
theorem C1_quadtree_retrieve_counterexample :
    boxesOverlap ⟨30, 30, 49, 49⟩ ⟨45, 45, 55, 55⟩ ∧
    (Box.mk 30 30 49 49) ∈ [Box.mk 30 30 49 49, Box.mk 65 15 85 35] ∧
    (Box.mk 30 30 49 49) ∉
      qtRetrieve (buildQT ⟨0, 0, 100, 100⟩ 1 5 [⟨30, 30, 49, 49⟩, ⟨65, 15, 85, 35⟩])
        ⟨45, 45, 55, 55⟩ := by
  refine ⟨⟨(47, 47), ?_, ?_⟩, ?_, ?_⟩
  · rw [inBox]
    norm_num
  · rw [inBox]
    norm_num
  · exact List.mem_cons_self _ _
  · have hidx1 : qtGetIndex ⟨0, 0, 100, 100⟩ ⟨30, 30, 49, 49⟩ = some 1 := by
      norm_num [qtGetIndex]
    have hidx2 : qtGetIndex ⟨0, 0, 100, 100⟩ ⟨65, 15, 85, 35⟩ = some 0 := by
      norm_num [qtGetIndex]
    have hidxq : qtGetIndex ⟨0, 0, 100, 100⟩ ⟨45, 45, 55, 55⟩ = none := by
      norm_num [qtGetIndex]
    have hc : qtFreshChildren ⟨0, 0, 100, 100⟩ 1 5 0 =
        (QT.leaf ⟨50, 0, 50, 50⟩ 1 5 1 [], QT.leaf ⟨0, 0, 50, 50⟩ 1 5 1 [],
         QT.leaf ⟨0, 50, 50, 50⟩ 1 5 1 [], QT.leaf ⟨50, 50, 50, 50⟩ 1 5 1 []) := by
      norm_num [qtFreshChildren]
    have hne : qtInsertF 5 (QT.leaf ⟨50, 0, 50, 50⟩ 1 5 1 []) ⟨65, 15, 85, 35⟩ =
        QT.leaf ⟨50, 0, 50, 50⟩ 1 5 1 [⟨65, 15, 85, 35⟩] := rfl
    have hnw : qtInsertF 5 (QT.leaf ⟨0, 0, 50, 50⟩ 1 5 1 []) ⟨30, 30, 49, 49⟩ =
        QT.leaf ⟨0, 0, 50, 50⟩ 1 5 1 [⟨30, 30, 49, 49⟩] := rfl
    have ht1 : qtInsertF (5 + 1) (qtEmpty ⟨0, 0, 100, 100⟩ 1 5) ⟨30, 30, 49, 49⟩ =
        QT.leaf ⟨0, 0, 100, 100⟩ 1 5 0 [⟨30, 30, 49, 49⟩] := rfl
    have ht2 : qtInsertF (5 + 1) (QT.leaf ⟨0, 0, 100, 100⟩ 1 5 0 [⟨30, 30, 49, 49⟩])
        ⟨65, 15, 85, 35⟩ =
        QT.quad ⟨0, 0, 100, 100⟩ 1 5 0 []
          (QT.leaf ⟨50, 0, 50, 50⟩ 1 5 1 [⟨65, 15, 85, 35⟩])
          (QT.leaf ⟨0, 0, 50, 50⟩ 1 5 1 [⟨30, 30, 49, 49⟩])
          (QT.leaf ⟨0, 50, 50, 50⟩ 1 5 1 [])
          (QT.leaf ⟨50, 50, 50, 50⟩ 1 5 1 []) := by
      rw [qtInsertF]
      simp only [hc]
      norm_num [qtRedistributeWith, hidx1, hidx2, hne, hnw]
    have hbuild : buildQT ⟨0, 0, 100, 100⟩ 1 5 [⟨30, 30, 49, 49⟩, ⟨65, 15, 85, 35⟩] =
        QT.quad ⟨0, 0, 100, 100⟩ 1 5 0 []
          (QT.leaf ⟨50, 0, 50, 50⟩ 1 5 1 [⟨65, 15, 85, 35⟩])
          (QT.leaf ⟨0, 0, 50, 50⟩ 1 5 1 [⟨30, 30, 49, 49⟩])
          (QT.leaf ⟨0, 50, 50, 50⟩ 1 5 1 [])
          (QT.leaf ⟨50, 50, 50, 50⟩ 1 5 1 []) := by
      rw [buildQT]
      simp only [List.foldl_cons, List.foldl_nil]
      rw [ht1, ht2]
    rw [hbuild]
    simp [qtRetrieve, hidxq]

/-- Witness for C1: two overlapping circles of radius 10 around (50,50) and
(60,50) in a 200×200 world with 100-unit cells; and a single stored box
retrieved by a non-straddling query. -/
theorem C1_broad_phase_no_false_negatives_witness :
    (∃ pr ∈ getPotentialCollisions (buildGrid 200 200 100
        ([BodyQ.circle (50, 50) 10, BodyQ.circle (60, 50) 10].map BodyQ.boundingBox)),
      pairKey pr = pairKey (0, 1)) ∧
    (Box.mk 10 10 20 20) ∈
      qtRetrieve (buildQT ⟨0, 0, 100, 100⟩ 1 5 [⟨10, 10, 20, 20⟩]) ⟨15, 15, 30, 30⟩ := by
  constructor
  · refine (C1_broad_phase_no_false_negatives.1 200 200 100 (by norm_num)
      [BodyQ.circle (50, 50) 10, BodyQ.circle (60, 50) 10] 0 1
      (BodyQ.circle (50, 50) 10) (BodyQ.circle (60, 50) 10) rfl rfl (by norm_num)
      ?_ ?_ ?_)
    · rw [BodyQ.valid]
      norm_num
    · rw [BodyQ.valid]
      norm_num
    · refine ⟨(55, 50), ?_, ?_⟩
      · rw [BodyQ.containsPoint, distSq]
        norm_num
      · rw [BodyQ.containsPoint, distSq]
        norm_num
  · have hqt : buildQT ⟨0, 0, 100, 100⟩ 1 5 [⟨10, 10, 20, 20⟩] =
        QT.leaf ⟨0, 0, 100, 100⟩ 1 5 0 [⟨10, 10, 20, 20⟩] := rfl
    refine C1_broad_phase_no_false_negatives.2 ⟨0, 0, 100, 100⟩ 1 5
      [⟨10, 10, 20, 20⟩] ⟨15, 15, 30, 30⟩ ⟨10, 10, 20, 20⟩ ?_
      (List.mem_cons_self _ _) ?_
    · rw [hqt]
      trivial
    · refine ⟨(16, 16), ?_, ?_⟩
      · rw [inBox]
        norm_num
      · rw [inBox]
        norm_num

end PhysicsVerif
